import Mathlib

set_option linter.all false

/-!
Shallow embedding of `study_tutor.py`: the note parser
(`_parse_note_for_anki`), the markup converters
(`_markdown_to_html_for_anki`, `_html_to_markdown_for_console`), the
reconciliation step of `save_note`, and the generation retry loop of
`main`.  Python strings are modelled as `List Char`; the regular
expressions of the source are hand-compiled to deterministic scanners
(each one is annotated with the regex it implements and the reason the
compilation is faithful).  All definitions are structurally recursive
(scanners that skip more than one character take an explicit fuel
argument, instantiated with the input length, which is always
sufficient), so every definition evaluates by `decide`.
-/

abbrev Str := List Char

/-- Python whitespace class `\s` over ASCII, as used by `str.strip()` and the
regexes of the source: space, tab, newline, carriage return, vertical tab
(11) and form feed (12). -/
def ws (c : Char) : Bool :=
  c = ' ' || c = '\t' || c = '\n' || c = '\r' || c.toNat = 11 || c.toNat = 12

/-- Python `str.strip()`: remove leading and trailing whitespace. -/
def trimList (l : Str) : Str :=
  ((l.dropWhile ws).reverse.dropWhile ws).reverse

/-- Python `str.lower()` restricted to ASCII letters; the source only ever
compares the lowered text against ASCII patterns such as `"### grammar:"`. -/
def asciiLower (l : Str) : Str :=
  l.map fun c => if 'A' ≤ c ∧ c ≤ 'Z' then Char.ofNat (c.toNat + 32) else c

/-- Boolean prefix test on character lists. -/
def isPre : Str → Str → Bool
  | [], _ => true
  | _ :: _, [] => false
  | p :: ps, c :: cs => p = c && isPre ps cs

/-- Leftmost occurrence search: `breakAtPat pat l = some (pre, rest)` when
`l = pre ++ pat ++ rest` with `pat` not occurring earlier, `none` when `pat`
does not occur in `l`.  This is the single primitive behind every
`re.search` / `str.replace` scan of the source. -/
def breakAtPat (pat : Str) : Str → Option (Str × Str)
  | [] => if isPre pat [] then some ([], []) else none
  | c :: r =>
    if isPre pat (c :: r) then some ([], (c :: r).drop pat.length)
    else
      match breakAtPat pat r with
      | some (pre, rest) => some (c :: pre, rest)
      | none => none

/-- Substring test (Python `in`), via the leftmost-occurrence scanner. -/
def containsSub (pat l : Str) : Bool :=
  (breakAtPat pat l).isSome

/-- Python `str.split("\n")`: always returns at least one (possibly empty)
segment. -/
def splitNL : Str → List Str
  | [] => [[]]
  | c :: r =>
    if c = '\n' then [] :: splitNL r
    else
      match splitNL r with
      | s :: ss => (c :: s) :: ss
      | [] => [[c]]

/-- Python `"\n".join(...)`. -/
def joinNL : List Str → Str
  | [] => []
  | [s] => s
  | s :: ss => s ++ '\n' :: joinNL ss

/-- Python `"<br>".join(...)`. -/
def joinBr : List Str → Str
  | [] => []
  | [s] => s
  | s :: ss => s ++ ('<' :: 'b' :: 'r' :: '>' :: joinBr ss)

/-!  ## Markup converter: `_markdown_to_html_for_anki` (source lines 121-171) -/

/-- One rewriting step list for `re.sub(r"\*\*(.*?)\*\*", r"<b>\1</b>", line)`
with explicit fuel (the scan restarts after each replacement, which consumes
at least four characters, so fuel `l.length + 1` is always enough).
Faithfulness of the compilation: `re.sub` replaces the leftmost match and
continues after it; a match is an occurrence of `**` followed by a later
occurrence of `**` (the non-greedy group takes everything up to the first
such occurrence); if the leftmost `**` has no second `**` starting at least
two characters later, no other position can match either, so the scan
stops. -/
def boldSubF : Nat → Str → Str
  | 0, l => l
  | fuel + 1, l =>
    match breakAtPat ['*', '*'] l with
    | none => l
    | some (pre, rest) =>
      match breakAtPat ['*', '*'] rest with
      | none => l
      | some (content, after) =>
        pre ++ ('<' :: 'b' :: '>' :: content) ++ ('<' :: '/' :: 'b' :: '>' :: boldSubF fuel after)

/-- `re.sub(r"\*\*(.*?)\*\*", r"<b>\1</b>", line)`. -/
def boldSub (l : Str) : Str :=
  boldSubF (l.length + 1) l

/-- One pass of `re.sub(r"(?<!\*)\*([^*\n]+?)\*(?!\*)", r"<i>\1</i>", line)`.
`prev` is the character before the current scan position in the subject (the
lookbehind examines the subject string, so after a replacement it is the
closing `*` of the match).  At a candidate `*` with `prev ≠ '*'`, the
non-greedy body forces the closing star to be the first `*` after the
opening one; the match succeeds when there is at least one body character,
no newline occurs in the body, and the character after the closing star is
not `*` (backtracking cannot extend the body past a star, so a lookahead
failure kills the candidate).  On failure the scan advances one
character. -/
def italicSubF : Nat → Option Char → Str → Str
  | 0, _, l => l
  | _ + 1, _, [] => []
  | fuel + 1, prev, c :: r =>
    if c = '*' ∧ prev ≠ some '*' then
      match breakAtPat ['*'] r with
      | some (content, after) =>
        if content ≠ [] ∧ ('\n' ∉ content) ∧ isPre ['*'] after = false then
          ('<' :: 'i' :: '>' :: content) ++ ('<' :: '/' :: 'i' :: '>' :: italicSubF fuel (some '*') after)
        else c :: italicSubF fuel (some c) r
      | none => c :: italicSubF fuel (some c) r
    else c :: italicSubF fuel (some c) r

/-- `re.sub(r"(?<!\*)\*([^*\n]+?)\*(?!\*)", r"<i>\1</i>", line)` (scan starts
at the beginning of the line, so there is no previous character). -/
def italicSub (l : Str) : Str :=
  italicSubF (l.length + 1) none l

/-- The italic scanner with its `prev` state and canonical fuel, used to
state the stepping equations of `italicSub`. -/
def italicSubA (prev : Option Char) (l : Str) : Str :=
  italicSubF (l.length + 1) prev l

/-- `re.sub(r"^\s*[\*-]\s+", "", line)`: strip one leading list marker.  The
pattern is anchored; `\s*` and `\s+` are greedy and are followed by
characters that are never whitespace, so the scan is deterministic. -/
def stripListMarker (l : Str) : Str :=
  match l.dropWhile ws with
  | c :: r =>
    if (c = '*' ∨ c = '-') ∧ (match r with | d :: _ => ws d | [] => false) = true then
      r.dropWhile ws
    else l
  | [] => l

/-- `len(re.match(r"^(\s*)", original_line).group(1))`. -/
def leadingWsCount (l : Str) : Nat :=
  (l.takeWhile ws).length

/-- `"&nbsp;" * k`. -/
def nbspRep : Nat → Str
  | 0 => []
  | k + 1 => '&' :: 'n' :: 'b' :: 's' :: 'p' :: ';' :: nbspRep k

/-- Body of the per-line loop of `_markdown_to_html_for_anki` (source lines
137-165): blank lines become `<br>`; otherwise bold then italic conversion,
list-marker stripping, and an indentation prefix of `min(indent_level, 8)`
non-breaking-space units computed on the original line. -/
def processLine (line : Str) : Str :=
  if trimList line = [] then ['<', 'b', 'r', '>']
  else
    let l1 := stripListMarker (italicSub (boldSub line))
    let n := leadingWsCount line
    if n > 0 then nbspRep (min n 8) ++ l1 else l1

/-- Drop every leading occurrence of `<br>` (fuel version; each step removes
four characters, so fuel `l.length` suffices). -/
def dropBrsF : Nat → Str → Str
  | 0, l => l
  | fuel + 1, l =>
    if isPre ['<', 'b', 'r', '>'] l then dropBrsF fuel (l.drop 4) else l

/-- One scan of `re.sub(r"(<br>){3,}", "<br><br>", result)`.  Occurrences of
`<br>` can never overlap, so the leftmost match of the greedy pattern starts
exactly at the first position carrying three consecutive `<br>`; the scan
may therefore advance over a single `<br>` in one four-character step.  Fuel
`l.length + 1` is always sufficient (every branch consumes at least one
character). -/
def collapseBrF : Nat → Str → Str
  | 0, l => l
  | fuel + 1, l =>
    if isPre ['<', 'b', 'r', '>', '<', 'b', 'r', '>', '<', 'b', 'r', '>'] l then
      '<' :: 'b' :: 'r' :: '>' :: '<' :: 'b' :: 'r' :: '>' :: collapseBrF fuel (dropBrsF l.length l)
    else if isPre ['<', 'b', 'r', '>'] l then
      '<' :: 'b' :: 'r' :: '>' :: collapseBrF fuel (l.drop 4)
    else
      match l with
      | [] => []
      | c :: r => c :: collapseBrF fuel r

/-- `re.sub(r"(<br>){3,}", "<br><br>", result)`. -/
def collapseBr (l : Str) : Str :=
  collapseBrF (l.length + 1) l

/-- `_markdown_to_html_for_anki` (source lines 121-171): split into lines,
convert each line, join with `<br>`, collapse runs of three or more `<br>`
to two, and strip the result. -/
def _markdown_to_html_for_anki (text : Str) : Str :=
  if text = [] then []
  else trimList (collapseBr (joinBr ((splitNL text).map processLine)))

/-!  ## Markup converter: `_html_to_markdown_for_console` (source lines 174-195) -/

/-- Python `str.replace(pat, repl)`: replace all non-overlapping occurrences
left to right (fuel version; every replacement consumes at least one
character of the remaining input, so fuel `l.length + 1` suffices). -/
def replaceAllF : Nat → Str → Str → Str → Str
  | 0, _, _, l => l
  | fuel + 1, pat, repl, l =>
    match breakAtPat pat l with
    | none => l
    | some (pre, rest) => pre ++ repl ++ replaceAllF fuel pat repl rest

/-- Python `str.replace(pat, repl)`. -/
def replaceAll (pat repl l : Str) : Str :=
  replaceAllF (l.length + 1) pat repl l

/-- `_html_to_markdown_for_console` (source lines 174-195): `<br>` to
newline, `&nbsp;` to space, `<b>`/`</b>` to `**`, `<i>`/`</i>` to `*`, in
the order of the source. -/
def _html_to_markdown_for_console (h : Str) : Str :=
  if h = [] then []
  else
    replaceAll ['<', '/', 'i', '>'] ['*']
      (replaceAll ['<', 'i', '>'] ['*']
        (replaceAll ['<', '/', 'b', '>'] ['*', '*']
          (replaceAll ['<', 'b', '>'] ['*', '*']
            (replaceAll ['&', 'n', 'b', 's', 'p', ';'] [' ']
              (replaceAll ['<', 'b', 'r', '>'] ['\n'] h)))))

/-!  ## Note parser: `_parse_note_for_anki` (source lines 198-250) -/

/-- Match of `re.search(r"###\s*Grammar:", line, re.IGNORECASE)` anchored at
the current position: literal `###`, then greedy `\s*` (whitespace never
begins `Grammar:`, so greediness is deterministic), then case-insensitive
`Grammar:`. -/
def grammarHeadAt (l : Str) : Bool :=
  isPre ['#', '#', '#'] l &&
    isPre ['g', 'r', 'a', 'm', 'm', 'a', 'r', ':'] (asciiLower ((l.drop 3).dropWhile ws))

/-- `re.search(r"###\s*Grammar:", line, re.IGNORECASE)`: try every start
position. -/
def grammarSearch : Str → Bool
  | [] => false
  | c :: r => grammarHeadAt (c :: r) || grammarSearch r

/-- Match of `re.search(r"^\s*[\*-]\s+\*\*(.*?)\*\*(.*)", lines[0])`.
Anchored at position 0 (`re.search` cannot shift the start past `^` without
`re.MULTILINE`); `\s*`/`\s+` are greedy against character classes disjoint
from what follows, so the scan is deterministic; the non-greedy group
captures everything up to the first later occurrence of `**`; the trailing
`(.*)` takes the rest of the line.  Returns `(group 1, group 2)`. -/
def vocabMatch (l : Str) : Option (Str × Str) :=
  match l.dropWhile ws with
  | c :: r =>
    if c = '*' ∨ c = '-' then
      match r with
      | d :: _ =>
        if ws d then
          let r2 := r.dropWhile ws
          if isPre ['*', '*'] r2 then breakAtPat ['*', '*'] (r2.drop 2)
          else none
        else none
      | [] => none
    else none
  | [] => none

/-- `_parse_note_for_anki` (source lines 198-250).  Returns
`(front, back, reason)`: `(none, none, some "grammar")` for grammar notes,
`(some front, some back, none)` for vocabulary notes, `(none, none, none)`
otherwise. -/
def _parse_note_for_anki (note_content : Str) : Option Str × Option Str × Option Str :=
  let lines := splitNL (trimList note_content)
  match lines with
  | [] => (none, none, none)
  | l0 :: rest =>
    let fll := asciiLower (trimList l0)
    if containsSub ['#', '#', '#', ' ', 'g', 'r', 'a', 'm', 'm', 'a', 'r', ':'] fll
        || isPre ['#', '#', '#', ' ', 'g', 'r', 'a', 'm', 'm', 'a', 'r'] fll then
      (none, none, some ['g', 'r', 'a', 'm', 'm', 'a', 'r'])
    else if ((l0 :: rest).take 3).any grammarSearch then
      (none, none, some ['g', 'r', 'a', 'm', 'm', 'a', 'r'])
    else
      match vocabMatch l0 with
      | some (g1, g2) =>
        let front := trimList g1
        let back_part1 := trimList g2
        let back_part2 := trimList (joinNL rest)
        let full_back_content := trimList (back_part1 ++ '\n' :: back_part2)
        (some front, some (_markdown_to_html_for_anki full_back_content), none)
      | none => (none, none, none)

/-!  ## Reconciliation: `save_note` (source lines 341-415) -/

/-- Value stored in the Anki cache: `{'back': ..., 'id': ...}` (the id may be
absent in principle, `note.get("noteId")` returns `None` then). -/
structure NoteEntry where
  back : Str
  id : Option Nat
deriving DecidableEq, Repr

abbrev Cache := List (Str × NoteEntry)

/-- Python dict lookup (first matching key). -/
def lookupC (k : Str) : Cache → Option NoteEntry
  | [] => none
  | (k', e) :: r => if k' = k then some e else lookupC k r

/-- `anki_notes_cache[front]["back"] = back`: mutate only the `back` field of
the entry stored under `front` (dict keys are unique, so rewriting every
pair carrying the key is the same operation). -/
def updateBack : Cache → Str → Str → Cache
  | [], _, _ => []
  | (k', e) :: r, k, b =>
    if k' = k then (k', NoteEntry.mk b e.id) :: updateBack r k b
    else (k', e) :: updateBack r k b

/-- Outcome of the interactive duplicate prompt (the source loops until the
user types `k` or `o`; the loop is the delivery mechanism of one decision,
so the decision function is consulted exactly once per duplicate). -/
inductive DupChoice where
  | keep
  | overwrite
deriving DecidableEq

/-- `save_note` (source lines 341-415), with the collaborators made explicit:
`decideFn` is the duplicate prompt, `addRes` the outcome of the
`anki_invoke("addNote", ...)` call (`Except.error` models an exception
caught by the surrounding `try`, `Except.ok none` models AnkiConnect
returning `None`; Python's `if result:` is falsy for both `None` and `0`).
The `updateNoteFields` call of the overwrite branch cannot raise
(`anki_invoke` catches every exception and returns `None`, and its result is
not inspected), so it has no effect on the modelled state.  Returns
`(return value, cache after the call, number of decideFn invocations)`. -/
def save_note (note_content : Str) (cache : Cache)
    (decideFn : NoteEntry → Str → DupChoice)
    (addRes : Except Unit (Option Nat)) : Nat × Cache × Nat :=
  match _parse_note_for_anki note_content with
  | (some front, some back, _) =>
    if front = [] then (0, cache, 0)
    else
      match lookupC front cache with
      | some existing =>
        match decideFn existing back with
        | .overwrite => (1, updateBack cache front back, 1)
        | .keep => (0, cache, 1)
      | none =>
        match addRes with
        | .error _ => (0, cache, 0)
        | .ok none => (0, cache, 0)
        | .ok (some id) =>
          if id ≠ 0 then (1, (front, NoteEntry.mk back (some id)) :: cache, 0)
          else (0, cache, 0)
  | _ => (0, cache, 0)

/-!  ## Generation retry loop of `main` (source lines 566-603) -/

/-- `RETRY_COUNT = 3` (source line 38). -/
def RETRY_COUNT : Nat := 3

/-- One response of the generation service: `text s` models a successful call
whose `response.text` is `s` (possibly empty), `err code` models a raised
exception whose `code` attribute is `code` (absent attribute: `none`). -/
inductive SvcResp where
  | text : Str → SvcResp
  | err : Option Nat → SvcResp

/-- Final state of one user question's generation attempt loop:
`success s` breaks out of the loop with payload `s`; `fatal code` re-raises
an exception carrying the given `code` attribute (the empty-response
exhaustion raises `Exception("No response from the model.")`, which has no
`code`, hence `fatal none`). -/
inductive GenResult where
  | success : Str → GenResult
  | fatal : Option Nat → GenResult
deriving DecidableEq

/-- The retry loop of `main` (source lines 566-603).  `svc n` is the response
of call number `n`; `cnt` is `current_retry_count`; `att` counts calls made
and `sl` records the sleeps performed, in order.  The loop re-enters only
while `cnt < RETRY_COUNT` after an increment, so `RETRY_COUNT - cnt` bounds
the remaining iterations and `RETRY_COUNT` is sufficient fuel from the
initial state. -/
def genLoopAux (svc : Nat → SvcResp) : Nat → Nat → Nat → List Nat → GenResult × Nat × List Nat
  | 0, _, att, sl => (.fatal none, att, sl)
  | fuel + 1, cnt, att, sl =>
    match svc att with
    | .text s =>
      if s = [] then
        if cnt + 1 < RETRY_COUNT then genLoopAux svc fuel (cnt + 1) (att + 1) (sl ++ [2])
        else (.fatal none, att + 1, sl)
      else (.success s, att + 1, sl)
    | .err code =>
      if code = some 503 then
        if cnt + 1 < RETRY_COUNT then
          genLoopAux svc fuel (cnt + 1) (att + 1) (sl ++ [2 ^ (cnt + 1)])
        else (.fatal (some 503), att + 1, sl)
      else (.fatal code, att + 1, sl)

/-- The retry wrapper: run the loop from `current_retry_count = 0`. -/
def generate_with_retry (svc : Nat → SvcResp) : GenResult × Nat × List Nat :=
  genLoopAux svc RETRY_COUNT 0 0 []

/-- Character class used to state the C8 round-trip theorem: text that
carries none of the characters the two converters treat specially (emphasis
stars, tag brackets, entity ampersands, newlines). -/
def noSpec (l : Str) : Prop :=
  ∀ c ∈ l, c ≠ '*' ∧ c ≠ '<' ∧ c ≠ '&' ∧ c ≠ '\n'

/-- Detector for a run of three or more consecutive `<br>` markers. -/
def hasRun3 (l : Str) : Bool :=
  match l with
  | [] => false
  | _ :: r =>
    isPre ['<', 'b', 'r', '>', '<', 'b', 'r', '>', '<', 'b', 'r', '>'] l || hasRun3 r

/-!  ## Helper lemmas -/

theorem splitNL_ne_nil (l : Str) : splitNL l ≠ [] := by
  induction l with
  | nil => simp [splitNL]
  | cons c r ih =>
    simp only [splitNL]
    split
    · simp
    · match h : splitNL r with
      | [] => exact absurd h ih
      | s :: ss => simp

theorem lookupC_updateBack (k f b : Str) (cache : Cache) :
    lookupC k (updateBack cache f b) =
      (lookupC k cache).map fun e => if k = f then NoteEntry.mk b e.id else e := by
  induction cache with
  | nil => rfl
  | cons p r ih =>
    obtain ⟨k', e⟩ := p
    by_cases hf : k' = f
    · subst hf
      rw [updateBack, if_pos rfl]
      by_cases hk : k' = k
      · subst hk
        simp [lookupC]
      · rw [lookupC, lookupC, if_neg hk, if_neg hk, ih]
    · rw [updateBack, if_neg hf]
      by_cases hk : k' = k
      · subst hk
        simp [lookupC, hf]
      · rw [lookupC, lookupC, if_neg hk, if_neg hk, ih]

theorem length_updateBack (f b : Str) (cache : Cache) :
    (updateBack cache f b).length = cache.length := by
  induction cache with
  | nil => rfl
  | cons p r ih =>
    obtain ⟨k', e⟩ := p
    rw [updateBack]
    by_cases hf : k' = f
    · rw [if_pos hf, List.length_cons, List.length_cons, ih]
    · rw [if_neg hf, List.length_cons, List.length_cons, ih]

/-!  ## Claims about the retry wrapper (C2, C6) -/

/-- C2, counterexample.  With a service that always signals a 503
transient-unavailable error and `RETRY_COUNT = 3`, the wrapper makes 3
attempts but sleeps only twice, 2 then 4 time-units: after the third
attempt `current_retry_count = 3` is not `< RETRY_COUNT`, so the error is
re-raised without the claimed third sleep of 8 time-units.  The sleep list
is `[2, 4]`, not `[2, 4, 8]` as the claim states. -/
theorem c2_counterexample :
    (generate_with_retry (fun _ => .err (some 503))).2.2 = [2, 4] ∧
      (generate_with_retry (fun _ => .err (some 503))).2.2 ≠ [2, 4, 8] := by
  decide

/-- C2, amended: if every attempt signals a 503 transient-unavailable error,
the wrapper makes exactly 3 attempts, sleeps backoff delays of 2 and 4
time-units between consecutive attempts (two sleeps, not three), and then
re-raises the underlying 503 error. -/
theorem c2_retry_exhaust_503 (svc : Nat → SvcResp)
    (h : ∀ n, svc n = .err (some 503)) :
    generate_with_retry svc = (.fatal (some 503), 3, [2, 4]) := by
  simp [generate_with_retry, genLoopAux, RETRY_COUNT, h]

/-- C2, witness for the amended theorem at the always-503 service. -/
theorem c2_retry_exhaust_503_witness :
    generate_with_retry (fun _ => .err (some 503)) = (.fatal (some 503), 3, [2, 4]) :=
  c2_retry_exhaust_503 (fun _ => .err (some 503)) (fun _ => rfl)

/-- C6: if the service returns an empty payload on the first two attempts
and a non-empty payload on the third, the wrapper returns the successful
payload after exactly 2 retries (3 attempts in total), each retry preceded
by the fixed 2-time-unit delay. -/
theorem c6_retry_empty_then_success (svc : Nat → SvcResp) (t : Str)
    (h0 : svc 0 = .text []) (h1 : svc 1 = .text []) (h2 : svc 2 = .text t)
    (ht : t ≠ []) :
    generate_with_retry svc = (.success t, 3, [2, 2]) := by
  simp [generate_with_retry, genLoopAux, RETRY_COUNT, h0, h1, h2, ht]

/-- C6, witness: a concrete service that is empty twice then answers `x`. -/
theorem c6_retry_empty_then_success_witness :
    generate_with_retry (fun n => if n < 2 then .text [] else .text ['x'])
      = (.success ['x'], 3, [2, 2]) :=
  c6_retry_empty_then_success (fun n => if n < 2 then .text [] else .text ['x'])
    ['x'] rfl rfl rfl (by decide)

/-!  ## Claims about `save_note` reconciliation (C4, C9, C10) -/

/-- C4: when `save_note` runs on a note whose (non-empty) front is already a
key of the cache, the decision function is consulted exactly once, no new
cache entry is inserted (the length and the key set of the cache are
preserved), and if the decision is Keep the call returns 0 with the cache
completely unchanged. -/
theorem c4_reconcile_existing (note : Str) (cache : Cache)
    (decideFn : NoteEntry → Str → DupChoice) (addRes : Except Unit (Option Nat))
    (f bk : Str) (e : NoteEntry)
    (hp : _parse_note_for_anki note = (some f, some bk, none))
    (hf : f ≠ []) (hc : lookupC f cache = some e) :
    (save_note note cache decideFn addRes).2.2 = 1 ∧
      ((save_note note cache decideFn addRes).2.1).length = cache.length ∧
      (∀ k, (lookupC k (save_note note cache decideFn addRes).2.1).isSome
              = (lookupC k cache).isSome) ∧
      (decideFn e bk = .keep → save_note note cache decideFn addRes = (0, cache, 1)) := by
  simp only [save_note, hp, if_neg hf, hc]
  cases hd : decideFn e bk with
  | keep => simp
  | overwrite =>
    refine ⟨rfl, length_updateBack f bk cache, fun k => ?_, fun hk => ?_⟩
    · rw [lookupC_updateBack]
      simp
    · simp [hd] at hk

/-- C4, witness: existing key `der Tisch`, Keep decision. -/
theorem c4_reconcile_existing_witness :
    save_note ("- **der Tisch** table".toList)
        [("der Tisch".toList, NoteEntry.mk ['x'] (some 5))]
        (fun _ _ => .keep) (.ok none)
      = (0, [("der Tisch".toList, NoteEntry.mk ['x'] (some 5))], 1) :=
  (c4_reconcile_existing ("- **der Tisch** table".toList)
      [("der Tisch".toList, NoteEntry.mk ['x'] (some 5))]
      (fun _ _ => .keep) (.ok none)
      ("der Tisch".toList) ("table".toList) (NoteEntry.mk ['x'] (some 5))
      (by decide) (by decide) (by decide)).2.2.2 rfl

/-- C9: when the parsed front is a new (non-empty) key, a failing `addNote`
call — an exception, or AnkiConnect returning `None` — makes `save_note`
return 0 with the cache exactly as before; and whenever the call does change
the cache, the backend returned a non-null (and non-zero) id and the single
new entry stores that id. -/
theorem c9_backend_failure_no_mutation (note : Str) (cache : Cache)
    (decideFn : NoteEntry → Str → DupChoice) (f bk : Str)
    (hp : _parse_note_for_anki note = (some f, some bk, none))
    (hf : f ≠ []) (hnc : lookupC f cache = none) :
    (∀ addRes, addRes = .error () ∨ addRes = .ok none →
        save_note note cache decideFn addRes = (0, cache, 0)) ∧
      (∀ addRes, (save_note note cache decideFn addRes).2.1 ≠ cache →
        ∃ id, addRes = .ok (some id) ∧ id ≠ 0 ∧
          save_note note cache decideFn addRes
            = (1, (f, NoteEntry.mk bk (some id)) :: cache, 0)) := by
  constructor
  · rintro addRes (rfl | rfl) <;> simp [save_note, hp, if_neg hf, hnc]
  · intro addRes hchange
    simp only [save_note, hp, if_neg hf, hnc] at hchange ⊢
    match addRes with
    | .error _ => simp at hchange
    | .ok none => simp at hchange
    | .ok (some id) =>
      by_cases hid : id = 0
      · simp [hid] at hchange
      · exact ⟨id, rfl, hid, by simp [hid]⟩

/-- C9, witness: AnkiConnect returns `None` for a new note; nothing is
inserted and the return value is 0. -/
theorem c9_backend_failure_no_mutation_witness :
    save_note ("- **der Wal** whale".toList) [] (fun _ _ => .keep) (.ok none)
      = (0, [], 0) :=
  (c9_backend_failure_no_mutation ("- **der Wal** whale".toList) []
      (fun _ _ => .keep) ("der Wal".toList) ("whale".toList)
      (by decide) (by decide) (by decide)).1 (.ok none) (Or.inr rfl)

/-- C10: when the Overwrite decision is taken for an existing key, only the
`back` field of that key's entry is reassigned: the entry keeps its `id`,
every other key maps to its old entry, and the number of cache entries is
unchanged (and the call returns 1). -/
theorem c10_overwrite_frame (note : Str) (cache : Cache)
    (decideFn : NoteEntry → Str → DupChoice) (addRes : Except Unit (Option Nat))
    (f bk : Str) (e : NoteEntry)
    (hp : _parse_note_for_anki note = (some f, some bk, none))
    (hf : f ≠ []) (hc : lookupC f cache = some e)
    (hd : decideFn e bk = .overwrite) :
    save_note note cache decideFn addRes = (1, updateBack cache f bk, 1) ∧
      lookupC f (updateBack cache f bk) = some (NoteEntry.mk bk e.id) ∧
      (∀ k, k ≠ f → lookupC k (updateBack cache f bk) = lookupC k cache) ∧
      (updateBack cache f bk).length = cache.length := by
  refine ⟨by simp [save_note, hp, if_neg hf, hc, hd], ?_, fun k hk => ?_,
    length_updateBack f bk cache⟩
  · rw [lookupC_updateBack, hc]
    simp
  · rw [lookupC_updateBack]
    cases lookupC k cache with
    | none => rfl
    | some e' => simp [hk]

/-- C10, witness: overwrite `der Tisch`, the id 5 and the second entry
survive untouched. -/
theorem c10_overwrite_frame_witness :
    save_note ("- **der Tisch** table".toList)
        [("der Tisch".toList, NoteEntry.mk ['x'] (some 5)),
         ("gehen".toList, NoteEntry.mk ['y'] (some 7))]
        (fun _ _ => .overwrite) (.ok none)
      = (1, [("der Tisch".toList, NoteEntry.mk ("table".toList) (some 5)),
             ("gehen".toList, NoteEntry.mk ['y'] (some 7))], 1) := by
  have h := (c10_overwrite_frame ("- **der Tisch** table".toList)
      [("der Tisch".toList, NoteEntry.mk ['x'] (some 5)),
       ("gehen".toList, NoteEntry.mk ['y'] (some 7))]
      (fun _ _ => .overwrite) (.ok none)
      ("der Tisch".toList) ("table".toList) (NoteEntry.mk ['x'] (some 5))
      (by decide) (by decide) (by decide) rfl).1
  rw [h]
  decide

/-!  ## Claims about `_parse_note_for_anki` (C1, C3) -/

/-- C1, counterexample.  The block `"# Grammar: test"` has a first line that
is a case-insensitive `Grammar:` heading in the claim's sense (optional
leading `#` markers — here one — then whitespace, then the literal
`Grammar:`), yet `_parse_note_for_anki` classifies it as malformed
`(none, none, none)`, not as Grammar: the code only recognises headings
carrying the literal `###`. -/
theorem c1_counterexample :
    _parse_note_for_anki ("# Grammar: test".toList) = (none, none, none) ∧
      _parse_note_for_anki ("# Grammar: test".toList)
        ≠ (none, none, some ("grammar".toList)) := by
  decide

/-- C1, amended: for every block one of whose first 3 lines contains `###`
followed by optional whitespace and the case-insensitive literal
`Grammar:`, classification is Grammar with no front and no back — even when
the block's first line also matches the vocabulary bold-list pattern (the
grammar test is checked first and short-circuits vocabulary detection). -/
theorem c1_grammar_priority (b : Str)
    (h : ∃ i li, i < 3 ∧ (splitNL (trimList b))[i]? = some li ∧ grammarSearch li = true) :
    _parse_note_for_anki b = (none, none, some ("grammar".toList)) := by
  obtain ⟨i, li, hi, hget, hgram⟩ := h
  simp only [_parse_note_for_anki]
  split
  · rename_i heq
    exact absurd heq (splitNL_ne_nil _)
  · rename_i l0 rest heq
    rw [heq] at hget
    have hmem : li ∈ (l0 :: rest).take 3 := by
      apply List.getElem?_mem (n := i)
      rw [List.getElem?_take, if_pos hi]
      exact hget
    have hany : ((l0 :: rest).take 3).any grammarSearch = true :=
      List.any_eq_true.2 ⟨li, hmem, hgram⟩
    rw [if_pos hany]
    split
    · rfl
    · rfl

/-- C1, witness: a block whose single line both matches the vocabulary
bold-list pattern and contains a `### Grammar:` heading is classified
Grammar. -/
theorem c1_grammar_priority_witness :
    _parse_note_for_anki ("- **der** ### Grammar: x".toList)
        = (none, none, some ("grammar".toList)) ∧
      (vocabMatch ("- **der** ### Grammar: x".toList)).isSome = true :=
  ⟨c1_grammar_priority ("- **der** ### Grammar: x".toList)
      ⟨0, "- **der** ### Grammar: x".toList, by decide, by decide, by decide⟩,
    by decide⟩

/-- C3, counterexample.  The block `"- ****"` is classified Vocabulary (the
first line matches the bold-list pattern), but the extracted front is the
empty string — the claim requires it to be non-empty — and the code's back
is the empty string, whereas the claim's formula (`toDisplayMarkup` of the
trimmed trailing text, a newline, and the trimmed remaining lines, with no
final trim of the concatenation) yields `"<br><br>"`. -/
theorem c3_counterexample :
    _parse_note_for_anki ("- ****".toList) = (some [], some [], none) ∧
      _markdown_to_html_for_anki ['\n'] = "<br><br>".toList := by
  decide

/-- C3, amended: for every block classified Vocabulary, the extracted front
equals the trimmed content of the first bold span on line 1 (it may be
empty), and the back equals `toDisplayMarkup` applied to the *stripped*
concatenation of the trimmed trailing text of line 1, a newline, and the
trimmed remaining lines. -/
theorem c3_vocab_extraction (b f bk : Str)
    (hp : _parse_note_for_anki b = (some f, some bk, none)) :
    ∃ l0 rest g1 g2, splitNL (trimList b) = l0 :: rest ∧
      vocabMatch l0 = some (g1, g2) ∧ f = trimList g1 ∧
      bk = _markdown_to_html_for_anki
        (trimList (trimList g2 ++ '\n' :: trimList (joinNL rest))) := by
  simp only [_parse_note_for_anki] at hp
  split at hp
  · rename_i heq
    exact absurd heq (splitNL_ne_nil _)
  · rename_i l0 rest heq
    split at hp
    · simp at hp
    · split at hp
      · simp at hp
      · split at hp
        · rename_i g1 g2 hv
          simp only [Prod.mk.injEq, Option.some.injEq] at hp
          exact ⟨l0, rest, g1, g2, heq, hv, hp.1.symm, hp.2.1.symm⟩
        · simp at hp

/-- C3, witness for the amended claim at the spec's own example block. -/
theorem c3_vocab_extraction_witness :
    ∃ l0 rest g1 g2,
      splitNL (trimList ("- **die Ankunft** (fem.): arrival".toList)) = l0 :: rest ∧
        vocabMatch l0 = some (g1, g2) ∧ "die Ankunft".toList = trimList g1 ∧
        "(fem.): arrival".toList = _markdown_to_html_for_anki
          (trimList (trimList g2 ++ '\n' :: trimList (joinNL rest))) :=
  c3_vocab_extraction ("- **die Ankunft** (fem.): arrival".toList)
    ("die Ankunft".toList) ("(fem.): arrival".toList) (by decide)

/-!  ## Claim about indentation conversion (C5) -/

/-- C5, counterexample.  The line `"  "` begins with 2 whitespace characters,
so the claim demands a prefix of `min(2, 8) = 2` non-breaking-space markers;
but a whitespace-only line is emitted as the line-break marker `<br>`, with
no `&nbsp;` prefix at all. -/
theorem c5_counterexample :
    processLine ("  ".toList) = "<br>".toList ∧
      isPre ("&nbsp;".toList) (processLine ("  ".toList)) = false := by
  decide

/-- C5, amended: for every input line that contains a non-whitespace
character, if the original line (before list-marker stripping) begins with
`n > 0` whitespace characters then the emitted line is exactly
`min(n, 8)` non-breaking-space markers followed by the converted content,
and if it has no leading whitespace it receives no such prefix; a
whitespace-only line is emitted as a line-break marker instead. -/
theorem c5_indent_nbsp (line : Str) (hblank : trimList line ≠ []) :
    (0 < leadingWsCount line →
        processLine line
          = nbspRep (min (leadingWsCount line) 8)
              ++ stripListMarker (italicSub (boldSub line))) ∧
      (leadingWsCount line = 0 →
        processLine line = stripListMarker (italicSub (boldSub line))) := by
  constructor
  · intro hn
    rw [processLine, if_neg hblank]
    simp only [if_pos hn]
  · intro hn
    rw [processLine, if_neg hblank]
    simp [hn]

/-- C5, witness: an indented example line receives exactly two marker
units. -/
theorem c5_indent_nbsp_witness :
    processLine ("  - **ich** gehe".toList)
      = nbspRep (min (leadingWsCount ("  - **ich** gehe".toList)) 8)
          ++ stripListMarker (italicSub (boldSub ("  - **ich** gehe".toList))) :=
  (c5_indent_nbsp ("  - **ich** gehe".toList) (by decide)).1 (by decide)

theorem bool_true_of_not_false {b : Bool} (h : ¬ b = false) : b = true := by
  cases b <;> simp_all

theorem bool_false_of_not_true {b : Bool} (h : ¬ b = true) : b = false := by
  cases b <;> simp_all

theorem isPre_length {p l : Str} (h : isPre p l = true) : p.length ≤ l.length := by
  induction p generalizing l with
  | nil => simp
  | cons a ps ih =>
    cases l with
    | nil => simp [isPre] at h
    | cons c cs =>
      rw [isPre, Bool.and_eq_true] at h
      simpa using ih h.2

theorem isPre_append (p q l : Str) :
    isPre (p ++ q) l = (isPre p l && isPre q (l.drop p.length)) := by
  induction p generalizing l with
  | nil => simp [isPre]
  | cons a ps ih =>
    cases l with
    | nil => simp [isPre]
    | cons c cs =>
      simp only [List.cons_append, List.append_eq, isPre, ih, List.length_cons,
        List.drop_succ_cons, Bool.and_assoc]

theorem isPre_append_split {p q l : Str} (h : isPre (p ++ q) l = true) :
    isPre p l = true ∧ isPre q (l.drop p.length) = true := by
  rw [isPre_append, Bool.and_eq_true] at h
  exact h

theorem isPre_self_append (p x : Str) : isPre p (p ++ x) = true := by
  induction p with
  | nil => rfl
  | cons a ps ih => simp [isPre, ih]

theorem isPre_append_right {p : Str} : ∀ {a : Str} (b : Str), isPre p a = true →
    isPre p (a ++ b) = true := by
  induction p with
  | nil => intro a b _; rfl
  | cons x ps ih =>
    intro a b h
    cases a with
    | nil => simp [isPre] at h
    | cons c cs =>
      rw [isPre, Bool.and_eq_true] at h
      rw [List.cons_append, isPre, Bool.and_eq_true]
      exact ⟨h.1, ih b h.2⟩

theorem dropBrsF_length : ∀ (f : Nat) (l : Str), (dropBrsF f l).length ≤ l.length := by
  intro f
  induction f with
  | zero => intro l; simp [dropBrsF]
  | succ f ih =>
    intro l
    rw [dropBrsF]
    split
    · exact le_trans (ih _) (by simpa using Nat.sub_le l.length 4)
    · exact le_refl _

theorem dropBrsF_not_pre :
    ∀ (f : Nat) (l : Str), l.length ≤ f →
      isPre ['<', 'b', 'r', '>'] (dropBrsF f l) = false := by
  intro f
  induction f with
  | zero =>
    intro l hl
    have : l = [] := List.length_eq_zero.1 (Nat.le_zero.1 hl)
    subst this
    rfl
  | succ f ih =>
    intro l hl
    rw [dropBrsF]
    split
    · rename_i h
      apply ih
      have h4 : 4 ≤ l.length := isPre_length h
      simp only [List.length_drop]
      omega
    · rename_i h
      exact bool_false_of_not_true h

theorem dropBrsF_drop_length {l : Str} (f : Nat) (hf : 1 ≤ f)
    (h : isPre ['<', 'b', 'r', '>'] l = true) :
    (dropBrsF f l).length ≤ l.length - 4 := by
  obtain ⟨f', rfl⟩ : ∃ f', f = f' + 1 := ⟨f - 1, by omega⟩
  rw [dropBrsF, if_pos h]
  calc (dropBrsF f' (l.drop 4)).length ≤ (l.drop 4).length := dropBrsF_length _ _
    _ = l.length - 4 := by simp

theorem collapseBrF_nil (f : Nat) : collapseBrF f [] = [] := by
  cases f with
  | zero => rfl
  | succ f => rfl

theorem collapseBrF_succ_cons (f : Nat) (c : Char) (r : Str) :
    collapseBrF (f + 1) (c :: r) =
      if isPre ['<', 'b', 'r', '>', '<', 'b', 'r', '>', '<', 'b', 'r', '>'] (c :: r) = true then
        '<' :: 'b' :: 'r' :: '>' :: '<' :: 'b' :: 'r' :: '>' ::
          collapseBrF f (dropBrsF (c :: r).length (c :: r))
      else if isPre ['<', 'b', 'r', '>'] (c :: r) = true then
        '<' :: 'b' :: 'r' :: '>' :: collapseBrF f ((c :: r).drop 4)
      else c :: collapseBrF f r := rfl

theorem collapseBrF_congr :
    ∀ (f g : Nat) (l : Str), l.length ≤ f → l.length ≤ g →
      collapseBrF f l = collapseBrF g l := by
  intro f
  induction f with
  | zero =>
    intro g l hf hg
    have : l = [] := List.length_eq_zero.1 (Nat.le_zero.1 hf)
    subst this
    rw [collapseBrF_nil, collapseBrF_nil]
  | succ f ih =>
    intro g l hf hg
    cases l with
    | nil => rw [collapseBrF_nil, collapseBrF_nil]
    | cons c r =>
      have hcr : (c :: r).length = r.length + 1 := by simp
      have hg1 : 1 ≤ g := by omega
      obtain ⟨g', rfl⟩ : ∃ g', g = g' + 1 := ⟨g - 1, by omega⟩
      rw [collapseBrF_succ_cons, collapseBrF_succ_cons]
      by_cases h3 : isPre ['<', 'b', 'r', '>', '<', 'b', 'r', '>', '<', 'b', 'r', '>']
          (c :: r) = true
      · rw [if_pos h3, if_pos h3]
        have h3' : isPre (['<', 'b', 'r', '>'] ++ ['<', 'b', 'r', '>', '<', 'b', 'r', '>'])
            (c :: r) = true := h3
        have hbr := (isPre_append_split h3').1
        have h4 : 4 ≤ (c :: r).length := isPre_length hbr
        have hlen : (dropBrsF (c :: r).length (c :: r)).length ≤ (c :: r).length - 4 :=
          dropBrsF_drop_length _ (by omega) hbr
        rw [ih g' (dropBrsF (c :: r).length (c :: r)) (by omega) (by omega)]
      · rw [if_neg h3, if_neg h3]
        by_cases h1 : isPre ['<', 'b', 'r', '>'] (c :: r) = true
        · rw [if_pos h1, if_pos h1]
          have h4 : 4 ≤ (c :: r).length := isPre_length h1
          rw [ih g' ((c :: r).drop 4) (by rw [List.length_drop]; omega)
            (by rw [List.length_drop]; omega)]
        · rw [if_neg h1, if_neg h1]
          rw [ih g' r (by omega) (by omega)]

theorem collapseBr_nil : collapseBr [] = [] := rfl

theorem collapseBr_run {l : Str}
    (h : isPre ['<', 'b', 'r', '>', '<', 'b', 'r', '>', '<', 'b', 'r', '>'] l = true) :
    collapseBr l = '<' :: 'b' :: 'r' :: '>' :: '<' :: 'b' :: 'r' :: '>' ::
      collapseBr (dropBrsF l.length l) := by
  cases l with
  | nil => exact absurd h (by decide)
  | cons c r =>
    have h' : isPre (['<', 'b', 'r', '>'] ++ ['<', 'b', 'r', '>', '<', 'b', 'r', '>'])
        (c :: r) = true := h
    have hbr := (isPre_append_split h').1
    have h12 : 12 ≤ (c :: r).length := isPre_length h
    have hlen : (dropBrsF (c :: r).length (c :: r)).length ≤ (c :: r).length - 4 :=
      dropBrsF_drop_length _ (by omega) hbr
    rw [collapseBr, collapseBr, collapseBrF_succ_cons, if_pos h,
      collapseBrF_congr ((c :: r).length) ((dropBrsF (c :: r).length (c :: r)).length + 1) _
        (by omega) (by omega)]

theorem collapseBr_br {l : Str}
    (h3 : isPre ['<', 'b', 'r', '>', '<', 'b', 'r', '>', '<', 'b', 'r', '>'] l = false)
    (h1 : isPre ['<', 'b', 'r', '>'] l = true) :
    collapseBr l = '<' :: 'b' :: 'r' :: '>' :: collapseBr (l.drop 4) := by
  cases l with
  | nil => exact absurd h1 (by decide)
  | cons c r =>
    have h4 : 4 ≤ (c :: r).length := isPre_length h1
    rw [collapseBr, collapseBr, collapseBrF_succ_cons, if_neg (by simp [h3]), if_pos h1,
      collapseBrF_congr ((c :: r).length) (((c :: r).drop 4).length + 1) _
        (by rw [List.length_drop]; omega) (by omega)]

theorem collapseBr_cons {c : Char} {r : Str}
    (h1 : isPre ['<', 'b', 'r', '>'] (c :: r) = false) :
    collapseBr (c :: r) = c :: collapseBr r := by
  have h3 : isPre ['<', 'b', 'r', '>', '<', 'b', 'r', '>', '<', 'b', 'r', '>']
      (c :: r) = false := by
    by_contra hc
    have hc' := bool_true_of_not_false hc
    have h' : isPre (['<', 'b', 'r', '>'] ++ ['<', 'b', 'r', '>', '<', 'b', 'r', '>'])
        (c :: r) = true := hc'
    have := (isPre_append_split h').1
    rw [h1] at this
    exact absurd this (by decide)
  rw [collapseBr, collapseBr, collapseBrF_succ_cons, if_neg (by simp [h3]),
    if_neg (by simp [h1]), collapseBrF_congr ((c :: r).length) (r.length + 1) r
      (by simp) (by omega)]

/-- Characters of the output of `collapseBr` that are not `'<'` are inherited:
if a `'<'`-free string is a prefix of the collapsed output, it was a prefix
of the input. -/
theorem collapseBr_pre_pullback :
    ∀ (n : Nat) (l s : Str), l.length ≤ n → (∀ c ∈ s, c ≠ '<') →
      isPre s (collapseBr l) = true → isPre s l = true := by
  intro n
  induction n with
  | zero =>
    intro l s hl hs h
    have : l = [] := List.length_eq_zero.1 (Nat.le_zero.1 hl)
    subst this
    rwa [collapseBr_nil] at h
  | succ n ih =>
    intro l s hl hs h
    cases s with
    | nil => rfl
    | cons d s' =>
      have hd : d ≠ '<' := hs d (by simp)
      by_cases h3 : isPre ['<', 'b', 'r', '>', '<', 'b', 'r', '>', '<', 'b', 'r', '>'] l = true
      · rw [collapseBr_run h3, isPre, Bool.and_eq_true] at h
        exact absurd (of_decide_eq_true h.1) hd
      · by_cases h1 : isPre ['<', 'b', 'r', '>'] l = true
        · rw [collapseBr_br (bool_false_of_not_true h3) h1, isPre, Bool.and_eq_true] at h
          exact absurd (of_decide_eq_true h.1) hd
        · cases l with
          | nil => rwa [collapseBr_nil] at h
          | cons c r =>
            rw [collapseBr_cons (bool_false_of_not_true h1), isPre, Bool.and_eq_true] at h
            rw [isPre, Bool.and_eq_true]
            refine ⟨h.1, ih r s' ?_ (fun x hx => hs x (by simp [hx])) h.2⟩
            have : (c :: r).length = r.length + 1 := by simp
            omega

/-- The collapsed output starts with `<br>` only if the input did. -/
theorem collapseBr_not_pre_br (l : Str)
    (h : isPre ['<', 'b', 'r', '>'] l = false) :
    isPre ['<', 'b', 'r', '>'] (collapseBr l) = false := by
  cases l with
  | nil => rwa [collapseBr_nil]
  | cons c r =>
    rw [collapseBr_cons h]
    by_contra hc
    have hc' := bool_true_of_not_false hc
    rw [show (['<', 'b', 'r', '>'] : Str) = '<' :: ['b', 'r', '>'] from rfl, isPre,
      Bool.and_eq_true] at hc'
    have hpull : isPre ['b', 'r', '>'] r = true :=
      collapseBr_pre_pullback r.length r ['b', 'r', '>'] (le_refl _) (by decide) hc'.2
    have : isPre ['<', 'b', 'r', '>'] (c :: r) = true := by
      rw [show (['<', 'b', 'r', '>'] : Str) = '<' :: ['b', 'r', '>'] from rfl, isPre,
        Bool.and_eq_true]
      exact ⟨hc'.1, hpull⟩
    rw [h] at this
    exact absurd this (by decide)

/-- The collapsed output starts with `<br><br>` only if the input did. -/
theorem collapseBr_not_pre_brbr (l : Str)
    (h : isPre ['<', 'b', 'r', '>', '<', 'b', 'r', '>'] l = false) :
    isPre ['<', 'b', 'r', '>', '<', 'b', 'r', '>'] (collapseBr l) = false := by
  by_cases h3 : isPre ['<', 'b', 'r', '>', '<', 'b', 'r', '>', '<', 'b', 'r', '>'] l = true
  · exfalso
    have h3' : isPre (['<', 'b', 'r', '>', '<', 'b', 'r', '>'] ++ ['<', 'b', 'r', '>']) l
        = true := h3
    have := (isPre_append_split h3').1
    rw [h] at this
    exact absurd this (by decide)
  · by_cases h1 : isPre ['<', 'b', 'r', '>'] l = true
    · rw [collapseBr_br (bool_false_of_not_true h3) h1]
      have hnext : isPre ['<', 'b', 'r', '>'] (l.drop 4) = false := by
        by_contra hc
        have hc' := bool_true_of_not_false hc
        have hde : isPre (['<', 'b', 'r', '>'] ++ ['<', 'b', 'r', '>']) l
            = (isPre ['<', 'b', 'r', '>'] l
                && isPre ['<', 'b', 'r', '>'] (l.drop 4)) := by
          have := isPre_append ['<', 'b', 'r', '>'] ['<', 'b', 'r', '>'] l
          simpa using this
        have hfull : isPre (['<', 'b', 'r', '>'] ++ ['<', 'b', 'r', '>']) l = false := h
        rw [hde, h1, hc'] at hfull
        exact absurd hfull (by decide)
      have hout := collapseBr_not_pre_br (l.drop 4) hnext
      have e : isPre ['<', 'b', 'r', '>', '<', 'b', 'r', '>']
          ('<' :: 'b' :: 'r' :: '>' :: collapseBr (l.drop 4))
          = isPre ['<', 'b', 'r', '>'] (collapseBr (l.drop 4)) := rfl
      rw [e, hout]
    · cases l with
      | nil => rwa [collapseBr_nil]
      | cons c r =>
        have hout := collapseBr_not_pre_br (c :: r) (bool_false_of_not_true h1)
        rw [collapseBr_cons (bool_false_of_not_true h1)] at hout ⊢
        by_contra hc
        have hc' := bool_true_of_not_false hc
        have h' : isPre (['<', 'b', 'r', '>'] ++ ['<', 'b', 'r', '>'])
            (c :: collapseBr r) = true := hc'
        have := (isPre_append_split h').1
        rw [hout] at this
        exact absurd this (by decide)

theorem hasRun3_cons (c : Char) (r : Str) :
    hasRun3 (c :: r)
      = (isPre ['<', 'b', 'r', '>', '<', 'b', 'r', '>', '<', 'b', 'r', '>'] (c :: r)
          || hasRun3 r) := rfl

theorem hasRun3_append_left : ∀ (a b : Str), hasRun3 (a ++ b) = false → hasRun3 a = false := by
  intro a
  induction a with
  | nil => intro b _; rfl
  | cons c r ih =>
    intro b h
    rw [List.cons_append, hasRun3_cons, Bool.or_eq_false_iff] at h
    rw [hasRun3_cons, Bool.or_eq_false_iff]
    refine ⟨?_, ih b h.2⟩
    by_contra hc
    have hc' := bool_true_of_not_false hc
    have : isPre ['<', 'b', 'r', '>', '<', 'b', 'r', '>', '<', 'b', 'r', '>']
        ((c :: r) ++ b) = true := isPre_append_right b hc'
    rw [List.cons_append] at this
    rw [this] at h
    exact absurd h.1 (by decide)

theorem hasRun3_tail {c : Char} {r : Str} (h : hasRun3 (c :: r) = false) :
    hasRun3 r = false := by
  rw [hasRun3_cons, Bool.or_eq_false_iff] at h
  exact h.2

theorem hasRun3_dropWhile (p : Char → Bool) :
    ∀ (l : Str), hasRun3 l = false → hasRun3 (l.dropWhile p) = false := by
  intro l
  induction l with
  | nil => intro h; exact h
  | cons c r ih =>
    intro h
    rw [List.dropWhile_cons]
    split
    · exact ih (hasRun3_tail h)
    · exact h

theorem hasRun3_trim (l : Str) (h : hasRun3 l = false) : hasRun3 (trimList l) = false := by
  have ha : hasRun3 (l.dropWhile ws) = false := hasRun3_dropWhile ws l h
  rw [trimList]
  have hdec : l.dropWhile ws
      = ((l.dropWhile ws).reverse.dropWhile ws).reverse
          ++ ((l.dropWhile ws).reverse.takeWhile ws).reverse := by
    conv_lhs => rw [← List.reverse_reverse (l.dropWhile ws),
      ← List.takeWhile_append_dropWhile ws (l.dropWhile ws).reverse]
    rw [List.reverse_append]
  rw [hdec] at ha
  exact hasRun3_append_left _ _ ha

theorem hasRun3_brbr_head (X : Str)
    (h1 : isPre ['<', 'b', 'r', '>'] X = false)
    (h2 : isPre ['<', 'b', 'r', '>', '<', 'b', 'r', '>'] X = false)
    (h3 : hasRun3 X = false) :
    hasRun3 (['<', 'b', 'r', '>', '<', 'b', 'r', '>'] ++ X) = false := by
  have e : hasRun3 (['<', 'b', 'r', '>', '<', 'b', 'r', '>'] ++ X)
      = (isPre ['<', 'b', 'r', '>'] X
          || (isPre ['<', 'b', 'r', '>', '<', 'b', 'r', '>'] X || hasRun3 X)) := rfl
  rw [e, h1, h2, h3]
  rfl

theorem hasRun3_br_head (X : Str)
    (h2 : isPre ['<', 'b', 'r', '>', '<', 'b', 'r', '>'] X = false)
    (h3 : hasRun3 X = false) :
    hasRun3 (['<', 'b', 'r', '>'] ++ X) = false := by
  have e : hasRun3 (['<', 'b', 'r', '>'] ++ X)
      = (isPre ['<', 'b', 'r', '>', '<', 'b', 'r', '>'] X || hasRun3 X) := rfl
  rw [e, h2, h3]
  rfl

/-- Main invariant for C7: the collapsed join never contains three
consecutive `<br>` markers. -/
theorem collapseBr_hasRun3 : ∀ (n : Nat) (l : Str), l.length ≤ n →
    hasRun3 (collapseBr l) = false := by
  intro n
  induction n with
  | zero =>
    intro l hl
    have : l = [] := List.length_eq_zero.1 (Nat.le_zero.1 hl)
    subst this
    rw [collapseBr_nil]
    rfl
  | succ n ih =>
    intro l hl
    by_cases h3 : isPre ['<', 'b', 'r', '>', '<', 'b', 'r', '>', '<', 'b', 'r', '>'] l = true
    · rw [collapseBr_run h3]
      have h' : isPre (['<', 'b', 'r', '>'] ++ ['<', 'b', 'r', '>', '<', 'b', 'r', '>']) l
          = true := h3
      have hbr := (isPre_append_split h').1
      have h12 : 12 ≤ l.length := isPre_length h3
      have hmlen : (dropBrsF l.length l).length ≤ l.length - 4 :=
        dropBrsF_drop_length _ (by omega) hbr
      have hmbr : isPre ['<', 'b', 'r', '>'] (dropBrsF l.length l) = false :=
        dropBrsF_not_pre l.length l (le_refl _)
      have hmbrbr : isPre ['<', 'b', 'r', '>', '<', 'b', 'r', '>'] (dropBrsF l.length l)
          = false := by
        by_contra hc
        have hc' := bool_true_of_not_false hc
        have h'' : isPre (['<', 'b', 'r', '>'] ++ ['<', 'b', 'r', '>'])
            (dropBrsF l.length l) = true := hc'
        have := (isPre_append_split h'').1
        rw [hmbr] at this
        exact absurd this (by decide)
      exact hasRun3_brbr_head _ (collapseBr_not_pre_br _ hmbr)
        (collapseBr_not_pre_brbr _ hmbrbr) (ih _ (by omega))
    · by_cases h1 : isPre ['<', 'b', 'r', '>'] l = true
      · rw [collapseBr_br (bool_false_of_not_true h3) h1]
        have h4 : 4 ≤ l.length := isPre_length h1
        have hnext : isPre ['<', 'b', 'r', '>', '<', 'b', 'r', '>'] (l.drop 4) = false := by
          by_contra hc
          have hc' := bool_true_of_not_false hc
          have : isPre (['<', 'b', 'r', '>'] ++ ['<', 'b', 'r', '>', '<', 'b', 'r', '>']) l
              = true := by
            rw [isPre_append]
            have e : (['<', 'b', 'r', '>'] : Str).length = 4 := rfl
            rw [e, h1, hc']
            rfl
          exact absurd this (by simp [h3])
        exact hasRun3_br_head _ (collapseBr_not_pre_brbr _ hnext)
          (ih _ (by rw [List.length_drop]; omega))
      · cases l with
        | nil => rw [collapseBr_nil]; rfl
        | cons c r =>
          rw [collapseBr_cons (bool_false_of_not_true h1)]
          rw [hasRun3_cons, Bool.or_eq_false_iff]
          have hcr : (c :: r).length = r.length + 1 := by simp
          refine ⟨?_, ih r (by omega)⟩
          have hout := collapseBr_not_pre_br (c :: r) (bool_false_of_not_true h1)
          rw [collapseBr_cons (bool_false_of_not_true h1)] at hout
          by_contra hc
          have hc' := bool_true_of_not_false hc
          have h' : isPre (['<', 'b', 'r', '>'] ++ ['<', 'b', 'r', '>', '<', 'b', 'r', '>'])
              (c :: collapseBr r) = true := hc'
          have := (isPre_append_split h').1
          rw [hout] at this
          exact absurd this (by decide)

theorem head_dropWhile_false (p : Char → Bool) :
    ∀ (l : Str) (c : Char), (l.dropWhile p).head? = some c → p c = false := by
  intro l
  induction l with
  | nil => intro c h; simp [List.dropWhile] at h
  | cons a r ih =>
    intro c h
    rw [List.dropWhile_cons] at h
    split at h
    · exact ih c h
    · rename_i hpa
      simp only [List.head?_cons, Option.some.injEq] at h
      subst h
      exact bool_false_of_not_true hpa

theorem trim_head_not_ws (l : Str) (c : Char) (h : (trimList l).head? = some c) :
    ws c = false := by
  rw [trimList] at h
  have hdec : l.dropWhile ws
      = ((l.dropWhile ws).reverse.dropWhile ws).reverse
          ++ ((l.dropWhile ws).reverse.takeWhile ws).reverse := by
    conv_lhs => rw [← List.reverse_reverse (l.dropWhile ws),
      ← List.takeWhile_append_dropWhile ws (l.dropWhile ws).reverse]
    rw [List.reverse_append]
  have hh : (l.dropWhile ws).head? = some c := by
    rw [hdec, List.head?_append, h]
    rfl
  exact head_dropWhile_false ws l c hh

theorem trim_last_not_ws (l : Str) (c : Char) (h : (trimList l).getLast? = some c) :
    ws c = false := by
  rw [trimList, List.getLast?_reverse] at h
  exact head_dropWhile_false ws (l.dropWhile ws).reverse c h
/-- C7: `toDisplayMarkup` (`_markdown_to_html_for_anki`) is total over
arbitrary input — it is a Lean function — the empty string maps to the empty
string, and for every input the result contains no run of 3 or more
consecutive `<br>` line-break markers and has no leading or trailing
whitespace character. -/
theorem c7_toDisplayMarkup_total :
    _markdown_to_html_for_anki [] = [] ∧
      ∀ t : Str, hasRun3 (_markdown_to_html_for_anki t) = false ∧
        (∀ c, (_markdown_to_html_for_anki t).head? = some c → ws c = false) ∧
        (∀ c, (_markdown_to_html_for_anki t).getLast? = some c → ws c = false) := by
  refine ⟨rfl, fun t => ?_⟩
  by_cases ht : t = []
  · subst ht
    refine ⟨rfl, ?_, ?_⟩ <;> intro c h <;> simp [_markdown_to_html_for_anki] at h
  · rw [_markdown_to_html_for_anki, if_neg ht]
    exact ⟨hasRun3_trim _ (collapseBr_hasRun3
        (joinBr ((splitNL t).map processLine)).length _ (le_refl _)),
      fun c h => trim_head_not_ws _ c h, fun c h => trim_last_not_ws _ c h⟩

/-- C7, witness: a text whose lines and literal `<br>` content join into a
run of eight `<br>` markers, collapsed to two; the result keeps non-blank
edges. -/
theorem c7_toDisplayMarkup_total_witness :
    hasRun3 (_markdown_to_html_for_anki ("a<br><br><br>\n\n\n  b".toList)) = false ∧
      ws 'a' = false ∧ ws 'b' = false :=
  ⟨(c7_toDisplayMarkup_total.2 ("a<br><br><br>\n\n\n  b".toList)).1,
    (c7_toDisplayMarkup_total.2 ("a<br><br><br>\n\n\n  b".toList)).2.1 'a' (by decide),
    (c7_toDisplayMarkup_total.2 ("a<br><br><br>\n\n\n  b".toList)).2.2 'b' (by decide)⟩

/-!  ## Stepping equations for the scanners, towards C8 -/

theorem breakAtPat_cons_eq (pat : Str) (c : Char) (r : Str) :
    breakAtPat pat (c :: r)
      = if isPre pat (c :: r) = true then some (([] : Str), (c :: r).drop pat.length)
        else match breakAtPat pat r with
          | some (pre, rest) => some (c :: pre, rest)
          | none => none := rfl

theorem breakAtPat_step {pat : Str} {c : Char} {r : Str}
    (hc : isPre pat (c :: r) = false) :
    breakAtPat pat (c :: r)
      = Option.map (fun pr => (c :: pr.1, pr.2)) (breakAtPat pat r) := by
  rw [breakAtPat_cons_eq, if_neg (by simp [hc])]
  cases hb : breakAtPat pat r with
  | none => rfl
  | some pr =>
    obtain ⟨a, b⟩ := pr
    rfl

theorem isPre_take_drop : ∀ {pat l : Str}, isPre pat l = true →
    l = pat ++ l.drop pat.length := by
  intro pat
  induction pat with
  | nil => intro l _; simp
  | cons a ps ih =>
    intro l h
    cases l with
    | nil => simp [isPre] at h
    | cons c cs =>
      rw [isPre, Bool.and_eq_true] at h
      have hac : a = c := of_decide_eq_true h.1
      subst hac
      simp only [List.cons_append, List.length_cons, List.drop_succ_cons]
      exact congrArg (a :: ·) (ih h.2)

theorem breakAtPat_found (pat b : Str) : breakAtPat pat (pat ++ b) = some ([], b) := by
  cases pat with
  | nil =>
    cases b with
    | nil => rfl
    | cons c r => rfl
  | cons h pt =>
    rw [List.cons_append, breakAtPat_cons_eq,
      if_pos (show isPre (h :: pt) (h :: (pt ++ b)) = true from isPre_self_append (h :: pt) b)]
    rw [List.length_cons, List.drop_succ_cons, List.drop_left]

theorem breakAtPat_decomp {pat : Str} : ∀ {l pre rest : Str},
    breakAtPat pat l = some (pre, rest) → l = pre ++ pat ++ rest := by
  intro l
  induction l with
  | nil =>
    intro pre rest h
    rw [show breakAtPat pat []
        = if isPre pat [] = true then some (([] : Str), ([] : Str)) else none from rfl] at h
    split at h
    · rename_i hp
      cases pat with
      | nil =>
        simp only [Option.some.injEq, Prod.mk.injEq] at h
        rw [← h.1, ← h.2]
        rfl
      | cons a ps => simp [isPre] at hp
    · simp at h
  | cons c r ih =>
    intro pre rest h
    rw [breakAtPat_cons_eq] at h
    split at h
    · rename_i hp
      simp only [Option.some.injEq, Prod.mk.injEq] at h
      rw [← h.1, ← h.2]
      simpa using isPre_take_drop hp
    · cases hb : breakAtPat pat r with
      | none =>
        rw [hb] at h
        simp at h
      | some pr =>
        obtain ⟨a, b⟩ := pr
        rw [hb] at h
        simp only [Option.some.injEq, Prod.mk.injEq] at h
        rw [← h.1, ← h.2]
        have := ih hb
        rw [List.cons_append, List.cons_append]
        exact congrArg (c :: ·) (by simpa using this)

theorem breakAtPat_append_skip (h : Char) (pt : Str) :
    ∀ (a b : Str), (∀ c ∈ a, c ≠ h) →
      breakAtPat (h :: pt) (a ++ b)
        = Option.map (fun pr => (a ++ pr.1, pr.2)) (breakAtPat (h :: pt) b) := by
  intro a
  induction a with
  | nil =>
    intro b _
    rw [List.nil_append]
    cases hb : breakAtPat (h :: pt) b with
    | none => rfl
    | some pr =>
      obtain ⟨x, y⟩ := pr
      simp
  | cons c as ih =>
    intro b hs
    have hch : c ≠ h := hs c (by simp)
    have hpre : isPre (h :: pt) (c :: (as ++ b)) = false := by
      have e : isPre (h :: pt) (c :: (as ++ b))
          = (decide (h = c) && isPre pt (as ++ b)) := rfl
      rw [e, decide_eq_false (fun hh => hch hh.symm)]
      rfl
    rw [List.cons_append, breakAtPat_step hpre, ih b (fun x hx => hs x (by simp [hx]))]
    cases breakAtPat (h :: pt) b with
    | none => rfl
    | some pr =>
      obtain ⟨x, y⟩ := pr
      simp

theorem breakAtPat_none_of_notin (h : Char) (pt : Str) :
    ∀ (l : Str), (∀ c ∈ l, c ≠ h) → breakAtPat (h :: pt) l = none := by
  intro l
  induction l with
  | nil => intro _; rfl
  | cons c r ih =>
    intro hs
    have hch : c ≠ h := hs c (by simp)
    have hpre : isPre (h :: pt) (c :: r) = false := by
      have e : isPre (h :: pt) (c :: r) = (decide (h = c) && isPre pt r) := rfl
      rw [e, decide_eq_false (fun hh => hch hh.symm)]
      rfl
    rw [breakAtPat_step hpre, ih (fun x hx => hs x (by simp [hx]))]
    rfl

theorem breakAtPat_rest_length {pat l pre rest : Str} (hp : pat ≠ [])
    (h : breakAtPat pat l = some (pre, rest)) : rest.length < l.length := by
  have hd := breakAtPat_decomp h
  have hl := congrArg List.length hd
  simp only [List.length_append] at hl
  have hp1 : 1 ≤ pat.length := by
    cases pat with
    | nil => exact absurd rfl hp
    | cons a ps => simp
  omega

theorem replaceAllF_succ (f : Nat) (pat repl l : Str) :
    replaceAllF (f + 1) pat repl l
      = match breakAtPat pat l with
        | none => l
        | some (pre, rest) => pre ++ repl ++ replaceAllF f pat repl rest := rfl

theorem replaceAllF_congr (pat repl : Str) (hp : pat ≠ []) :
    ∀ (f g : Nat) (l : Str), l.length ≤ f → l.length ≤ g →
      replaceAllF f pat repl l = replaceAllF g pat repl l := by
  intro f
  induction f with
  | zero =>
    intro g l hf hg
    have hnil : l = [] := List.length_eq_zero.1 (Nat.le_zero.1 hf)
    subst hnil
    cases g with
    | zero => rfl
    | succ g =>
      rw [replaceAllF_succ]
      cases pat with
      | nil => exact absurd rfl hp
      | cons a ps => rfl
  | succ f ih =>
    intro g l hf hg
    cases hb : breakAtPat pat l with
    | none =>
      cases g with
      | zero =>
        have hnil : l = [] := List.length_eq_zero.1 (Nat.le_zero.1 hg)
        subst hnil
        rw [replaceAllF_succ, hb]
        rfl
      | succ g => rw [replaceAllF_succ, replaceAllF_succ, hb]
    | some pr =>
      obtain ⟨pre, rest⟩ := pr
      have hlen := breakAtPat_rest_length hp hb
      have hg1 : 1 ≤ g := by omega
      obtain ⟨g', rfl⟩ : ∃ g', g = g' + 1 := ⟨g - 1, by omega⟩
      rw [replaceAllF_succ, replaceAllF_succ, hb]
      dsimp only
      rw [ih g' rest (by omega) (by omega)]

theorem replaceAll_none {pat repl l : Str} (h : breakAtPat pat l = none) :
    replaceAll pat repl l = l := by
  rw [replaceAll, replaceAllF_succ, h]

theorem replaceAll_some {pat repl l pre rest : Str} (hp : pat ≠ [])
    (h : breakAtPat pat l = some (pre, rest)) :
    replaceAll pat repl l = pre ++ repl ++ replaceAll pat repl rest := by
  have hlen := breakAtPat_rest_length hp h
  rw [replaceAll, replaceAllF_succ, h]
  dsimp only
  rw [replaceAll, replaceAllF_congr pat repl hp l.length (rest.length + 1) rest
    (by omega) (by omega)]

theorem boldSubF_succ (f : Nat) (l : Str) :
    boldSubF (f + 1) l
      = match breakAtPat ['*', '*'] l with
        | none => l
        | some (pre, rest) =>
          match breakAtPat ['*', '*'] rest with
          | none => l
          | some (content, after) =>
            pre ++ ('<' :: 'b' :: '>' :: content)
              ++ ('<' :: '/' :: 'b' :: '>' :: boldSubF f after) := rfl

theorem boldSubF_congr :
    ∀ (f g : Nat) (l : Str), l.length ≤ f → l.length ≤ g →
      boldSubF f l = boldSubF g l := by
  intro f
  induction f with
  | zero =>
    intro g l hf hg
    have hnil : l = [] := List.length_eq_zero.1 (Nat.le_zero.1 hf)
    subst hnil
    cases g with
    | zero => rfl
    | succ g => rfl
  | succ f ih =>
    intro g l hf hg
    cases hb : breakAtPat ['*', '*'] l with
    | none =>
      cases g with
      | zero =>
        have hnil : l = [] := List.length_eq_zero.1 (Nat.le_zero.1 hg)
        subst hnil
        rfl
      | succ g => rw [boldSubF_succ, boldSubF_succ, hb]
    | some pr =>
      obtain ⟨pre, rest⟩ := pr
      cases hb2 : breakAtPat ['*', '*'] rest with
      | none =>
        cases g with
        | zero =>
          have hnil : l = [] := List.length_eq_zero.1 (Nat.le_zero.1 hg)
          subst hnil
          rfl
        | succ g =>
          rw [boldSubF_succ, boldSubF_succ, hb]
          dsimp only
          rw [hb2]
      | some pr2 =>
        obtain ⟨content, after⟩ := pr2
        have hlen := breakAtPat_rest_length (by decide) hb
        have hlen2 := breakAtPat_rest_length (by decide) hb2
        have hg1 : 1 ≤ g := by omega
        obtain ⟨g', rfl⟩ : ∃ g', g = g' + 1 := ⟨g - 1, by omega⟩
        rw [boldSubF_succ, boldSubF_succ, hb]
        dsimp only
        rw [hb2]
        dsimp only
        rw [ih g' after (by omega) (by omega)]

theorem boldSub_none {l : Str} (h : breakAtPat ['*', '*'] l = none) :
    boldSub l = l := by
  rw [boldSub, boldSubF_succ, h]

theorem boldSub_none2 {l pre rest : Str} (h1 : breakAtPat ['*', '*'] l = some (pre, rest))
    (h2 : breakAtPat ['*', '*'] rest = none) : boldSub l = l := by
  rw [boldSub, boldSubF_succ, h1]
  dsimp only
  rw [h2]

theorem boldSub_some {l pre rest content after : Str}
    (h1 : breakAtPat ['*', '*'] l = some (pre, rest))
    (h2 : breakAtPat ['*', '*'] rest = some (content, after)) :
    boldSub l = pre ++ ('<' :: 'b' :: '>' :: content)
      ++ ('<' :: '/' :: 'b' :: '>' :: boldSub after) := by
  have hlen := breakAtPat_rest_length (by decide) h1
  have hlen2 := breakAtPat_rest_length (by decide) h2
  rw [boldSub, boldSubF_succ, h1]
  dsimp only
  rw [h2]
  dsimp only
  rw [boldSub, boldSubF_congr l.length (after.length + 1) after (by omega) (by omega)]

theorem italicSubF_nil (f : Nat) (prev : Option Char) : italicSubF f prev [] = [] := by
  cases f with
  | zero => rfl
  | succ f => rfl

theorem italicSubF_succ_cons (f : Nat) (prev : Option Char) (c : Char) (r : Str) :
    italicSubF (f + 1) prev (c :: r)
      = if c = '*' ∧ prev ≠ some '*' then
          match breakAtPat ['*'] r with
          | some (content, after) =>
            if content ≠ [] ∧ ('\n' ∉ content) ∧ isPre ['*'] after = false then
              ('<' :: 'i' :: '>' :: content)
                ++ ('<' :: '/' :: 'i' :: '>' :: italicSubF f (some '*') after)
            else c :: italicSubF f (some c) r
          | none => c :: italicSubF f (some c) r
        else c :: italicSubF f (some c) r := rfl

theorem italicSubF_congr :
    ∀ (f g : Nat) (prev : Option Char) (l : Str), l.length ≤ f → l.length ≤ g →
      italicSubF f prev l = italicSubF g prev l := by
  intro f
  induction f with
  | zero =>
    intro g prev l hf hg
    have hnil : l = [] := List.length_eq_zero.1 (Nat.le_zero.1 hf)
    subst hnil
    rw [italicSubF_nil, italicSubF_nil]
  | succ f ih =>
    intro g prev l hf hg
    cases l with
    | nil => rw [italicSubF_nil, italicSubF_nil]
    | cons c r =>
      have hcr : (c :: r).length = r.length + 1 := by simp
      have hg1 : 1 ≤ g := by omega
      obtain ⟨g', rfl⟩ : ∃ g', g = g' + 1 := ⟨g - 1, by omega⟩
      rw [italicSubF_succ_cons, italicSubF_succ_cons]
      by_cases hc : c = '*' ∧ prev ≠ some '*'
      · rw [if_pos hc, if_pos hc]
        cases hb : breakAtPat ['*'] r with
        | none => rw [ih g' (some c) r (by omega) (by omega)]
        | some pr =>
          obtain ⟨content, after⟩ := pr
          have hlen := breakAtPat_rest_length (by decide) hb
          dsimp only
          by_cases hok : content ≠ [] ∧ ('\n' ∉ content) ∧ isPre ['*'] after = false
          · rw [if_pos hok, if_pos hok, ih g' (some '*') after (by omega) (by omega)]
          · rw [if_neg hok, if_neg hok, ih g' (some c) r (by omega) (by omega)]
      · rw [if_neg hc, if_neg hc, ih g' (some c) r (by omega) (by omega)]

theorem italicSub_eq_A (l : Str) : italicSub l = italicSubA none l := rfl

theorem italicSubA_nil (prev : Option Char) : italicSubA prev [] = [] := rfl

theorem italicSubA_cons_of_not {prev : Option Char} {c : Char} {r : Str}
    (hc : ¬(c = '*' ∧ prev ≠ some '*')) :
    italicSubA prev (c :: r) = c :: italicSubA (some c) r := by
  rw [italicSubA, italicSubF_succ_cons, if_neg hc, italicSubA,
    italicSubF_congr (c :: r).length (r.length + 1) (some c) r (by simp) (by omega)]

theorem italicSubA_cons_none {prev : Option Char} {c : Char} {r : Str}
    (hb : breakAtPat ['*'] r = none) :
    italicSubA prev (c :: r) = c :: italicSubA (some c) r := by
  by_cases hc : c = '*' ∧ prev ≠ some '*'
  · rw [italicSubA, italicSubF_succ_cons, if_pos hc, hb, italicSubA,
      italicSubF_congr (c :: r).length (r.length + 1) (some c) r (by simp) (by omega)]
  · exact italicSubA_cons_of_not hc

theorem italicSubA_cons_fail {prev : Option Char} {c : Char} {r content after : Str}
    (hb : breakAtPat ['*'] r = some (content, after))
    (hfail : ¬(content ≠ [] ∧ ('\n' ∉ content) ∧ isPre ['*'] after = false)) :
    italicSubA prev (c :: r) = c :: italicSubA (some c) r := by
  by_cases hc : c = '*' ∧ prev ≠ some '*'
  · rw [italicSubA, italicSubF_succ_cons, if_pos hc, hb]
    dsimp only
    rw [if_neg hfail, italicSubA,
      italicSubF_congr (c :: r).length (r.length + 1) (some c) r (by simp) (by omega)]
  · exact italicSubA_cons_of_not hc

theorem italicSubA_match {prev : Option Char} {r content after : Str}
    (hprev : prev ≠ some '*')
    (hb : breakAtPat ['*'] r = some (content, after))
    (hok : content ≠ [] ∧ ('\n' ∉ content) ∧ isPre ['*'] after = false) :
    italicSubA prev ('*' :: r)
      = ('<' :: 'i' :: '>' :: content)
          ++ ('<' :: '/' :: 'i' :: '>' :: italicSubA (some '*') after) := by
  have hlen := breakAtPat_rest_length (by decide) hb
  rw [italicSubA, italicSubF_succ_cons, if_pos ⟨rfl, hprev⟩, hb]
  dsimp only
  rw [if_pos hok, italicSubA,
    italicSubF_congr ('*' :: r).length (after.length + 1) (some '*') after
      (by simp; omega) (by omega)]

theorem italicSubA_skip :
    ∀ (a : Str) (prev : Option Char) (b : Str), (∀ c ∈ a, c ≠ '*') →
      italicSubA prev (a ++ b) = a ++ italicSubA (Option.or a.getLast? prev) b := by
  intro a
  induction a with
  | nil =>
    intro prev b _
    simp [Option.or]
  | cons c as ih =>
    intro prev b hs
    have hc : c ≠ '*' := hs c (by simp)
    rw [List.cons_append, italicSubA_cons_of_not (by simp [hc]),
      ih (some c) b (fun x hx => hs x (by simp [hx])), List.cons_append]
    have hor : Option.or (c :: as).getLast? prev = Option.or as.getLast? (some c) := by
      cases as with
      | nil => rfl
      | cons a' as' =>
        rw [List.getLast?_cons_cons]
        cases hl : (a' :: as').getLast? with
        | none =>
          have hsome : (a' :: as').getLast?.isSome = true := List.getLast?_isSome.2 (by simp)
          rw [hl] at hsome
          simp at hsome
        | some x => rfl
    rw [hor]

theorem head?_append_left {a : Str} (b : Str) (h : a ≠ []) :
    (a ++ b).head? = a.head? := by
  cases a with
  | nil => exact absurd rfl h
  | cons c r => rfl

theorem trim_eq_self {l : Str} (hh : ∀ c, l.head? = some c → ws c = false)
    (hl : ∀ c, l.getLast? = some c → ws c = false) : trimList l = l := by
  have h1 : l.dropWhile ws = l := by
    cases l with
    | nil => rfl
    | cons c r => rw [List.dropWhile_cons, if_neg (by simp [hh c rfl])]
  rw [trimList, h1]
  have h2 : l.reverse.dropWhile ws = l.reverse := by
    cases hr : l.reverse with
    | nil => rfl
    | cons c r =>
      have hc : l.getLast? = some c := by
        rw [← List.head?_reverse, hr]
        rfl
      rw [List.dropWhile_cons, if_neg (by simp [hl c hc])]
  rw [h2, List.reverse_reverse]

theorem leadingWs_zero {l : Str} (hh : ∀ c, l.head? = some c → ws c = false) :
    leadingWsCount l = 0 := by
  cases l with
  | nil => rfl
  | cons c r =>
    rw [leadingWsCount, List.takeWhile_cons, if_neg (by simp [hh c rfl])]
    rfl

theorem stripListMarker_eq_self {l : Str}
    (hh : ∀ c, l.head? = some c → ws c = false ∧ c ≠ '*' ∧ c ≠ '-') :
    stripListMarker l = l := by
  cases l with
  | nil => rfl
  | cons c r =>
    obtain ⟨hws, hs, hd⟩ := hh c rfl
    have hdw : (c :: r).dropWhile ws = c :: r := by
      rw [List.dropWhile_cons, if_neg (by simp [hws])]
    have e : stripListMarker (c :: r)
        = match (c :: r).dropWhile ws with
          | c' :: r' =>
            if (c' = '*' ∨ c' = '-')
                ∧ (match r' with | d :: _ => ws d | [] => false) = true then
              r'.dropWhile ws
            else (c :: r)
          | [] => (c :: r) := rfl
    rw [e, hdw]
    dsimp only
    rw [if_neg (by rintro ⟨hor, _⟩; rcases hor with h | h; exacts [hs h, hd h])]

theorem splitNL_no_nl : ∀ {l : Str}, '\n' ∉ l → splitNL l = [l] := by
  intro l
  induction l with
  | nil => intro _; rfl
  | cons c r ih =>
    intro h
    have hc : c ≠ '\n' := fun hh => h (by simp [hh])
    have e : splitNL (c :: r)
        = if c = '\n' then [] :: splitNL r
          else (match splitNL r with | s :: ss => (c :: s) :: ss | [] => [[c]]) := rfl
    rw [e, if_neg hc, ih (fun hm => h (by simp [hm]))]

theorem containsSub_of_none {pat l : Str} (h : breakAtPat pat l = none) :
    containsSub pat l = false := by
  rw [containsSub, h]
  rfl

theorem isPre_false_of_containsSub {pat : Str} {c : Char} {r : Str}
    (h : containsSub pat (c :: r) = false) : isPre pat (c :: r) = false := by
  by_contra hc
  have hc' := bool_true_of_not_false hc
  rw [containsSub, breakAtPat_cons_eq, if_pos hc'] at h
  simp at h

theorem containsSub_tail {pat : Str} {c : Char} {r : Str}
    (h : containsSub pat (c :: r) = false) : containsSub pat r = false := by
  have hpre := isPre_false_of_containsSub h
  rw [containsSub, breakAtPat_step hpre] at h
  rw [containsSub]
  cases hb : breakAtPat pat r with
  | none => rfl
  | some pr =>
    obtain ⟨x, y⟩ := pr
    rw [hb] at h
    simp at h

theorem collapseBr_no_br : ∀ (l : Str),
    containsSub ['<', 'b', 'r', '>'] l = false → collapseBr l = l := by
  intro l
  induction l with
  | nil => intro _; exact collapseBr_nil
  | cons c r ih =>
    intro h
    rw [collapseBr_cons (isPre_false_of_containsSub h), ih (containsSub_tail h)]

theorem italicSubA_all_safe (a : Str) (prev : Option Char) (h : ∀ c ∈ a, c ≠ '*') :
    italicSubA prev a = a := by
  have hk := italicSubA_skip a prev [] h
  rw [List.append_nil, italicSubA_nil, List.append_nil] at hk
  exact hk

theorem skip_br_bO (Z : Str) :
    breakAtPat ['<', 'b', 'r', '>'] ('<' :: 'b' :: '>' :: Z)
      = Option.map (fun pr => ('<' :: 'b' :: '>' :: pr.1, pr.2))
          (breakAtPat ['<', 'b', 'r', '>'] Z) := by
  rw [breakAtPat_step (by rfl), breakAtPat_step (by rfl), breakAtPat_step (by rfl)]
  cases breakAtPat ['<', 'b', 'r', '>'] Z with
  | none => rfl
  | some pr => obtain ⟨x, y⟩ := pr; rfl

theorem skip_br_bC (Z : Str) :
    breakAtPat ['<', 'b', 'r', '>'] ('<' :: '/' :: 'b' :: '>' :: Z)
      = Option.map (fun pr => ('<' :: '/' :: 'b' :: '>' :: pr.1, pr.2))
          (breakAtPat ['<', 'b', 'r', '>'] Z) := by
  rw [breakAtPat_step (by rfl), breakAtPat_step (by rfl), breakAtPat_step (by rfl),
    breakAtPat_step (by rfl)]
  cases breakAtPat ['<', 'b', 'r', '>'] Z with
  | none => rfl
  | some pr => obtain ⟨x, y⟩ := pr; rfl

theorem skip_br_iO (Z : Str) :
    breakAtPat ['<', 'b', 'r', '>'] ('<' :: 'i' :: '>' :: Z)
      = Option.map (fun pr => ('<' :: 'i' :: '>' :: pr.1, pr.2))
          (breakAtPat ['<', 'b', 'r', '>'] Z) := by
  rw [breakAtPat_step (by rfl), breakAtPat_step (by rfl), breakAtPat_step (by rfl)]
  cases breakAtPat ['<', 'b', 'r', '>'] Z with
  | none => rfl
  | some pr => obtain ⟨x, y⟩ := pr; rfl

theorem skip_br_iC (Z : Str) :
    breakAtPat ['<', 'b', 'r', '>'] ('<' :: '/' :: 'i' :: '>' :: Z)
      = Option.map (fun pr => ('<' :: '/' :: 'i' :: '>' :: pr.1, pr.2))
          (breakAtPat ['<', 'b', 'r', '>'] Z) := by
  rw [breakAtPat_step (by rfl), breakAtPat_step (by rfl), breakAtPat_step (by rfl),
    breakAtPat_step (by rfl)]
  cases breakAtPat ['<', 'b', 'r', '>'] Z with
  | none => rfl
  | some pr => obtain ⟨x, y⟩ := pr; rfl

theorem skip_bO_bC (Z : Str) :
    breakAtPat ['<', 'b', '>'] ('<' :: '/' :: 'b' :: '>' :: Z)
      = Option.map (fun pr => ('<' :: '/' :: 'b' :: '>' :: pr.1, pr.2))
          (breakAtPat ['<', 'b', '>'] Z) := by
  rw [breakAtPat_step (by rfl), breakAtPat_step (by rfl), breakAtPat_step (by rfl),
    breakAtPat_step (by rfl)]
  cases breakAtPat ['<', 'b', '>'] Z with
  | none => rfl
  | some pr => obtain ⟨x, y⟩ := pr; rfl

theorem skip_bO_iO (Z : Str) :
    breakAtPat ['<', 'b', '>'] ('<' :: 'i' :: '>' :: Z)
      = Option.map (fun pr => ('<' :: 'i' :: '>' :: pr.1, pr.2))
          (breakAtPat ['<', 'b', '>'] Z) := by
  rw [breakAtPat_step (by rfl), breakAtPat_step (by rfl), breakAtPat_step (by rfl)]
  cases breakAtPat ['<', 'b', '>'] Z with
  | none => rfl
  | some pr => obtain ⟨x, y⟩ := pr; rfl

theorem skip_bO_iC (Z : Str) :
    breakAtPat ['<', 'b', '>'] ('<' :: '/' :: 'i' :: '>' :: Z)
      = Option.map (fun pr => ('<' :: '/' :: 'i' :: '>' :: pr.1, pr.2))
          (breakAtPat ['<', 'b', '>'] Z) := by
  rw [breakAtPat_step (by rfl), breakAtPat_step (by rfl), breakAtPat_step (by rfl),
    breakAtPat_step (by rfl)]
  cases breakAtPat ['<', 'b', '>'] Z with
  | none => rfl
  | some pr => obtain ⟨x, y⟩ := pr; rfl

theorem skip_bC_iO (Z : Str) :
    breakAtPat ['<', '/', 'b', '>'] ('<' :: 'i' :: '>' :: Z)
      = Option.map (fun pr => ('<' :: 'i' :: '>' :: pr.1, pr.2))
          (breakAtPat ['<', '/', 'b', '>'] Z) := by
  rw [breakAtPat_step (by rfl), breakAtPat_step (by rfl), breakAtPat_step (by rfl)]
  cases breakAtPat ['<', '/', 'b', '>'] Z with
  | none => rfl
  | some pr => obtain ⟨x, y⟩ := pr; rfl

theorem skip_bC_iC (Z : Str) :
    breakAtPat ['<', '/', 'b', '>'] ('<' :: '/' :: 'i' :: '>' :: Z)
      = Option.map (fun pr => ('<' :: '/' :: 'i' :: '>' :: pr.1, pr.2))
          (breakAtPat ['<', '/', 'b', '>'] Z) := by
  rw [breakAtPat_step (by rfl), breakAtPat_step (by rfl), breakAtPat_step (by rfl),
    breakAtPat_step (by rfl)]
  cases breakAtPat ['<', '/', 'b', '>'] Z with
  | none => rfl
  | some pr => obtain ⟨x, y⟩ := pr; rfl

theorem skip_iO_iC (Z : Str) :
    breakAtPat ['<', 'i', '>'] ('<' :: '/' :: 'i' :: '>' :: Z)
      = Option.map (fun pr => ('<' :: '/' :: 'i' :: '>' :: pr.1, pr.2))
          (breakAtPat ['<', 'i', '>'] Z) := by
  rw [breakAtPat_step (by rfl), breakAtPat_step (by rfl), breakAtPat_step (by rfl),
    breakAtPat_step (by rfl)]
  cases breakAtPat ['<', 'i', '>'] Z with
  | none => rfl
  | some pr => obtain ⟨x, y⟩ := pr; rfl

theorem found_star (Z : Str) : breakAtPat ['*'] ('*' :: Z) = some ([], Z) :=
  breakAtPat_found ['*'] Z

theorem found_star2 (Z : Str) : breakAtPat ['*', '*'] ('*' :: '*' :: Z) = some ([], Z) :=
  breakAtPat_found ['*', '*'] Z

theorem found_bO (Z : Str) : breakAtPat ['<', 'b', '>'] ('<' :: 'b' :: '>' :: Z)
    = some ([], Z) := breakAtPat_found ['<', 'b', '>'] Z

theorem found_bC (Z : Str) : breakAtPat ['<', '/', 'b', '>'] ('<' :: '/' :: 'b' :: '>' :: Z)
    = some ([], Z) := breakAtPat_found ['<', '/', 'b', '>'] Z

theorem found_iO (Z : Str) : breakAtPat ['<', 'i', '>'] ('<' :: 'i' :: '>' :: Z)
    = some ([], Z) := breakAtPat_found ['<', 'i', '>'] Z

theorem found_iC (Z : Str) : breakAtPat ['<', '/', 'i', '>'] ('<' :: '/' :: 'i' :: '>' :: Z)
    = some ([], Z) := breakAtPat_found ['<', '/', 'i', '>'] Z

theorem step_star_lt (pt Z : Str) :
    breakAtPat ('<' :: pt) ('*' :: Z)
      = Option.map (fun pr => ('*' :: pr.1, pr.2)) (breakAtPat ('<' :: pt) Z) :=
  breakAtPat_step (by rfl)

theorem star2_mismatch {d : Char} (hd : d ≠ '*') (Z : Str) :
    isPre ['*', '*'] ('*' :: d :: Z) = false := by
  have e : isPre ['*', '*'] ('*' :: d :: Z)
      = (decide ('*' = '*') && (decide ('*' = d) && isPre ([] : Str) Z)) := rfl
  rw [e, (decide_eq_false (fun hh => hd hh.symm) : decide ('*' = d) = false)]
  simp

theorem star1_mismatch {d : Char} (hd : d ≠ '*') (Z : Str) :
    isPre ['*'] (d :: Z) = false := by
  have e : isPre ['*'] (d :: Z) = (decide ('*' = d) && isPre ([] : Str) Z) := rfl
  rw [e, (decide_eq_false (fun hh => hd hh.symm) : decide ('*' = d) = false)]
  rfl

theorem bold_hb1 (p R : Str) (hp : ∀ c ∈ p, c ≠ '*') :
    breakAtPat ['*', '*'] (p ++ '*' :: '*' :: R) = some (p, R) := by
  rw [breakAtPat_append_skip '*' ['*'] p ('*' :: '*' :: R) hp, found_star2]
  simp

theorem bold_none_tail (p₂ Y p₃ : Str) (h2 : ∀ c ∈ p₂, c ≠ '*') (hY : ∀ c ∈ Y, c ≠ '*')
    (h3 : ∀ c ∈ p₃, c ≠ '*') (hYne : Y ≠ []) (h3ne : p₃ ≠ []) :
    breakAtPat ['*', '*'] (p₂ ++ '*' :: (Y ++ '*' :: p₃)) = none := by
  obtain ⟨y₀, Y', rfl⟩ := List.exists_cons_of_ne_nil hYne
  obtain ⟨q₀, p₃', rfl⟩ := List.exists_cons_of_ne_nil h3ne
  have s1 : isPre ['*', '*'] ('*' :: ((y₀ :: Y') ++ '*' :: (q₀ :: p₃'))) = false := by
    rw [List.cons_append]
    exact star2_mismatch (hY y₀ (by simp)) _
  have s2 : isPre ['*', '*'] ('*' :: (q₀ :: p₃')) = false :=
    star2_mismatch (h3 q₀ (by simp)) _
  rw [breakAtPat_append_skip '*' ['*'] p₂ ('*' :: ((y₀ :: Y') ++ '*' :: (q₀ :: p₃'))) h2,
    breakAtPat_step s1,
    breakAtPat_append_skip '*' ['*'] (y₀ :: Y') ('*' :: (q₀ :: p₃')) hY,
    breakAtPat_step s2,
    breakAtPat_none_of_notin '*' ['*'] (q₀ :: p₃') h3]
  rfl

theorem c8_bold (p₁ X p₂ Y p₃ : Str)
    (h1 : ∀ c ∈ p₁, c ≠ '*') (hX : ∀ c ∈ X, c ≠ '*') (h2 : ∀ c ∈ p₂, c ≠ '*')
    (hY : ∀ c ∈ Y, c ≠ '*') (h3 : ∀ c ∈ p₃, c ≠ '*')
    (hYne : Y ≠ []) (h3ne : p₃ ≠ []) :
    boldSub (p₁ ++ '*' :: '*' :: (X ++ '*' :: '*' :: (p₂ ++ '*' :: (Y ++ '*' :: p₃))))
      = p₁ ++ '<' :: 'b' :: '>' :: (X ++ '<' :: '/' :: 'b' :: '>'
          :: (p₂ ++ '*' :: (Y ++ '*' :: p₃))) := by
  have hb1 := bold_hb1 p₁ (X ++ '*' :: '*' :: (p₂ ++ '*' :: (Y ++ '*' :: p₃))) h1
  have hb2 := bold_hb1 X (p₂ ++ '*' :: (Y ++ '*' :: p₃)) hX
  have hnone := bold_none_tail p₂ Y p₃ h2 hY h3 hYne h3ne
  rw [boldSub_some hb1 hb2, boldSub_none hnone]
  simp [List.cons_append, List.append_assoc]

theorem italicSubA_cons_safe {c : Char} (hc : c ≠ '*') (prev : Option Char) (r : Str) :
    italicSubA prev (c :: r) = c :: italicSubA (some c) r :=
  italicSubA_cons_of_not (by simp [hc])

theorem c8_italic (p₁ X p₂ Y p₃ : Str)
    (h1 : ∀ c ∈ p₁, c ≠ '*') (hX : ∀ c ∈ X, c ≠ '*') (h2 : ∀ c ∈ p₂, c ≠ '*')
    (hY : ∀ c ∈ Y, c ≠ '*') (h3 : ∀ c ∈ p₃, c ≠ '*')
    (hYne : Y ≠ []) (h2ne : p₂ ≠ []) (h3ne : p₃ ≠ []) (hYnl : '\n' ∉ Y) :
    italicSub (p₁ ++ '<' :: 'b' :: '>' :: (X ++ '<' :: '/' :: 'b' :: '>'
        :: (p₂ ++ '*' :: (Y ++ '*' :: p₃))))
      = p₁ ++ '<' :: 'b' :: '>' :: (X ++ '<' :: '/' :: 'b' :: '>'
          :: (p₂ ++ '<' :: 'i' :: '>' :: (Y ++ '<' :: '/' :: 'i' :: '>' :: p₃))) := by
  obtain ⟨z, hz⟩ : ∃ z, p₂.getLast? = some z := by
    cases hgl : p₂.getLast? with
    | none =>
      have := List.getLast?_isSome.2 h2ne
      rw [hgl] at this
      simp at this
    | some z => exact ⟨z, rfl⟩
  have hzs : z ≠ '*' := h2 z (List.mem_of_getLast?_eq_some hz)
  obtain ⟨q₀, p₃', rfl⟩ := List.exists_cons_of_ne_nil h3ne
  have hb : breakAtPat ['*'] (Y ++ '*' :: (q₀ :: p₃')) = some (Y, q₀ :: p₃') := by
    rw [breakAtPat_append_skip '*' [] Y ('*' :: (q₀ :: p₃')) hY, found_star]
    simp
  have hok : Y ≠ [] ∧ ('\n' ∉ Y) ∧ isPre ['*'] (q₀ :: p₃') = false :=
    ⟨hYne, hYnl, star1_mismatch (h3 q₀ (by simp)) _⟩
  rw [italicSub_eq_A,
    italicSubA_skip p₁ none ('<' :: 'b' :: '>' :: (X ++ '<' :: '/' :: 'b' :: '>'
      :: (p₂ ++ '*' :: (Y ++ '*' :: (q₀ :: p₃'))))) h1,
    italicSubA_cons_safe (by decide), italicSubA_cons_safe (by decide),
    italicSubA_cons_safe (by decide),
    italicSubA_skip X (some '>') ('<' :: '/' :: 'b' :: '>'
      :: (p₂ ++ '*' :: (Y ++ '*' :: (q₀ :: p₃')))) hX,
    italicSubA_cons_safe (by decide), italicSubA_cons_safe (by decide),
    italicSubA_cons_safe (by decide), italicSubA_cons_safe (by decide),
    italicSubA_skip p₂ (some '>') ('*' :: (Y ++ '*' :: (q₀ :: p₃'))) h2,
    hz]
  rw [show (some z).or (some '>') = some z from rfl]
  rw [italicSubA_match (by simp [hzs]) hb hok,
    italicSubA_all_safe (q₀ :: p₃') (some '*') h3]
  simp [List.cons_append, List.append_assoc]

/-!  ## C8 assembly: the full pipeline on a two-marker shape -/

theorem getLast?_append_ne (a : Str) {b : Str} (hb : b ≠ []) :
    (a ++ b).getLast? = b.getLast? := by
  obtain ⟨z, hz⟩ : ∃ z, b.getLast? = some z := by
    cases hgl : b.getLast? with
    | none =>
      have hs := List.getLast?_isSome.2 hb
      rw [hgl] at hs
      simp at hs
    | some z => exact ⟨z, rfl⟩
  rw [List.getLast?_append, hz]
  rfl

theorem mem_of_head?_eq {l : Str} {c : Char} (h : l.head? = some c) : c ∈ l := by
  cases l with
  | nil => simp at h
  | cons a r =>
    have ha : a = c := by simpa using h
    exact ha ▸ List.mem_cons_self a r

theorem joinBr_single (s : Str) : joinBr [s] = s := rfl

theorem skip_amp_bO (Z : Str) :
    breakAtPat ['&', 'n', 'b', 's', 'p', ';'] ('<' :: 'b' :: '>' :: Z)
      = Option.map (fun pr => ('<' :: 'b' :: '>' :: pr.1, pr.2))
          (breakAtPat ['&', 'n', 'b', 's', 'p', ';'] Z) := by
  rw [breakAtPat_step (by rfl), breakAtPat_step (by rfl), breakAtPat_step (by rfl)]
  cases breakAtPat ['&', 'n', 'b', 's', 'p', ';'] Z with
  | none => rfl
  | some pr => obtain ⟨x, y⟩ := pr; rfl

theorem skip_amp_bC (Z : Str) :
    breakAtPat ['&', 'n', 'b', 's', 'p', ';'] ('<' :: '/' :: 'b' :: '>' :: Z)
      = Option.map (fun pr => ('<' :: '/' :: 'b' :: '>' :: pr.1, pr.2))
          (breakAtPat ['&', 'n', 'b', 's', 'p', ';'] Z) := by
  rw [breakAtPat_step (by rfl), breakAtPat_step (by rfl), breakAtPat_step (by rfl),
    breakAtPat_step (by rfl)]
  cases breakAtPat ['&', 'n', 'b', 's', 'p', ';'] Z with
  | none => rfl
  | some pr => obtain ⟨x, y⟩ := pr; rfl

theorem skip_amp_iO (Z : Str) :
    breakAtPat ['&', 'n', 'b', 's', 'p', ';'] ('<' :: 'i' :: '>' :: Z)
      = Option.map (fun pr => ('<' :: 'i' :: '>' :: pr.1, pr.2))
          (breakAtPat ['&', 'n', 'b', 's', 'p', ';'] Z) := by
  rw [breakAtPat_step (by rfl), breakAtPat_step (by rfl), breakAtPat_step (by rfl)]
  cases breakAtPat ['&', 'n', 'b', 's', 'p', ';'] Z with
  | none => rfl
  | some pr => obtain ⟨x, y⟩ := pr; rfl

theorem skip_amp_iC (Z : Str) :
    breakAtPat ['&', 'n', 'b', 's', 'p', ';'] ('<' :: '/' :: 'i' :: '>' :: Z)
      = Option.map (fun pr => ('<' :: '/' :: 'i' :: '>' :: pr.1, pr.2))
          (breakAtPat ['&', 'n', 'b', 's', 'p', ';'] Z) := by
  rw [breakAtPat_step (by rfl), breakAtPat_step (by rfl), breakAtPat_step (by rfl),
    breakAtPat_step (by rfl)]
  cases breakAtPat ['&', 'n', 'b', 's', 'p', ';'] Z with
  | none => rfl
  | some pr => obtain ⟨x, y⟩ := pr; rfl

theorem t2_no_br (p₁ X p₂ Y p₃ : Str)
    (h1 : ∀ c ∈ p₁, c ≠ '<') (hX : ∀ c ∈ X, c ≠ '<') (h2 : ∀ c ∈ p₂, c ≠ '<')
    (hY : ∀ c ∈ Y, c ≠ '<') (h3 : ∀ c ∈ p₃, c ≠ '<') :
    breakAtPat ['<', 'b', 'r', '>']
        (p₁ ++ '<' :: 'b' :: '>' :: (X ++ '<' :: '/' :: 'b' :: '>'
          :: (p₂ ++ '<' :: 'i' :: '>' :: (Y ++ '<' :: '/' :: 'i' :: '>' :: p₃))))
      = none := by
  rw [breakAtPat_append_skip '<' ['b', 'r', '>'] p₁ _ h1, skip_br_bO,
    breakAtPat_append_skip '<' ['b', 'r', '>'] X _ hX, skip_br_bC,
    breakAtPat_append_skip '<' ['b', 'r', '>'] p₂ _ h2, skip_br_iO,
    breakAtPat_append_skip '<' ['b', 'r', '>'] Y _ hY, skip_br_iC,
    breakAtPat_none_of_notin '<' ['b', 'r', '>'] p₃ h3]
  rfl

theorem t2_no_amp (p₁ X p₂ Y p₃ : Str)
    (h1 : ∀ c ∈ p₁, c ≠ '&') (hX : ∀ c ∈ X, c ≠ '&') (h2 : ∀ c ∈ p₂, c ≠ '&')
    (hY : ∀ c ∈ Y, c ≠ '&') (h3 : ∀ c ∈ p₃, c ≠ '&') :
    breakAtPat ['&', 'n', 'b', 's', 'p', ';']
        (p₁ ++ '<' :: 'b' :: '>' :: (X ++ '<' :: '/' :: 'b' :: '>'
          :: (p₂ ++ '<' :: 'i' :: '>' :: (Y ++ '<' :: '/' :: 'i' :: '>' :: p₃))))
      = none := by
  rw [breakAtPat_append_skip '&' ['n', 'b', 's', 'p', ';'] p₁ _ h1, skip_amp_bO,
    breakAtPat_append_skip '&' ['n', 'b', 's', 'p', ';'] X _ hX, skip_amp_bC,
    breakAtPat_append_skip '&' ['n', 'b', 's', 'p', ';'] p₂ _ h2, skip_amp_iO,
    breakAtPat_append_skip '&' ['n', 'b', 's', 'p', ';'] Y _ hY, skip_amp_iC,
    breakAtPat_none_of_notin '&' ['n', 'b', 's', 'p', ';'] p₃ h3]
  rfl

theorem c8_back (p₁ X p₂ Y p₃ : Str)
    (n1 : noSpec p₁) (nX : noSpec X) (n2 : noSpec p₂) (nY : noSpec Y) (n3 : noSpec p₃) :
    _html_to_markdown_for_console
        (p₁ ++ '<' :: 'b' :: '>' :: (X ++ '<' :: '/' :: 'b' :: '>'
          :: (p₂ ++ '<' :: 'i' :: '>' :: (Y ++ '<' :: '/' :: 'i' :: '>' :: p₃))))
      = p₁ ++ '*' :: '*' :: (X ++ '*' :: '*' :: (p₂ ++ '*' :: (Y ++ '*' :: p₃))) := by
  have h1lt : ∀ c ∈ p₁, c ≠ '<' := fun c hc => (n1 c hc).2.1
  have hXlt : ∀ c ∈ X, c ≠ '<' := fun c hc => (nX c hc).2.1
  have h2lt : ∀ c ∈ p₂, c ≠ '<' := fun c hc => (n2 c hc).2.1
  have hYlt : ∀ c ∈ Y, c ≠ '<' := fun c hc => (nY c hc).2.1
  have h3lt : ∀ c ∈ p₃, c ≠ '<' := fun c hc => (n3 c hc).2.1
  have hne : (p₁ ++ '<' :: 'b' :: '>' :: (X ++ '<' :: '/' :: 'b' :: '>'
      :: (p₂ ++ '<' :: 'i' :: '>' :: (Y ++ '<' :: '/' :: 'i' :: '>' :: p₃)))) ≠ [] := by
    cases p₁ <;> simp
  rw [_html_to_markdown_for_console, if_neg hne]
  rw [replaceAll_none (t2_no_br p₁ X p₂ Y p₃ h1lt hXlt h2lt hYlt h3lt)]
  rw [replaceAll_none (t2_no_amp p₁ X p₂ Y p₃
    (fun c hc => (n1 c hc).2.2.1) (fun c hc => (nX c hc).2.2.1)
    (fun c hc => (n2 c hc).2.2.1) (fun c hc => (nY c hc).2.2.1)
    (fun c hc => (n3 c hc).2.2.1))]
  have h3some : breakAtPat ['<', 'b', '>']
      (p₁ ++ '<' :: 'b' :: '>' :: (X ++ '<' :: '/' :: 'b' :: '>'
        :: (p₂ ++ '<' :: 'i' :: '>' :: (Y ++ '<' :: '/' :: 'i' :: '>' :: p₃))))
      = some (p₁, X ++ '<' :: '/' :: 'b' :: '>'
        :: (p₂ ++ '<' :: 'i' :: '>' :: (Y ++ '<' :: '/' :: 'i' :: '>' :: p₃))) := by
    rw [breakAtPat_append_skip '<' ['b', '>'] p₁ _ h1lt, found_bO]
    simp
  have h3none : breakAtPat ['<', 'b', '>'] (X ++ '<' :: '/' :: 'b' :: '>'
      :: (p₂ ++ '<' :: 'i' :: '>' :: (Y ++ '<' :: '/' :: 'i' :: '>' :: p₃))) = none := by
    rw [breakAtPat_append_skip '<' ['b', '>'] X _ hXlt, skip_bO_bC,
      breakAtPat_append_skip '<' ['b', '>'] p₂ _ h2lt, skip_bO_iO,
      breakAtPat_append_skip '<' ['b', '>'] Y _ hYlt, skip_bO_iC,
      breakAtPat_none_of_notin '<' ['b', '>'] p₃ h3lt]
    rfl
  rw [replaceAll_some (by decide) h3some, replaceAll_none h3none]
  simp only [List.append_assoc, List.cons_append, List.nil_append]
  have h4some : breakAtPat ['<', '/', 'b', '>']
      (p₁ ++ '*' :: '*' :: (X ++ '<' :: '/' :: 'b' :: '>'
        :: (p₂ ++ '<' :: 'i' :: '>' :: (Y ++ '<' :: '/' :: 'i' :: '>' :: p₃))))
      = some (p₁ ++ '*' :: '*' :: X,
          p₂ ++ '<' :: 'i' :: '>' :: (Y ++ '<' :: '/' :: 'i' :: '>' :: p₃)) := by
    rw [breakAtPat_append_skip '<' ['/', 'b', '>'] p₁ _ h1lt, step_star_lt, step_star_lt,
      breakAtPat_append_skip '<' ['/', 'b', '>'] X _ hXlt, found_bC]
    simp
  have h4none : breakAtPat ['<', '/', 'b', '>']
      (p₂ ++ '<' :: 'i' :: '>' :: (Y ++ '<' :: '/' :: 'i' :: '>' :: p₃)) = none := by
    rw [breakAtPat_append_skip '<' ['/', 'b', '>'] p₂ _ h2lt, skip_bC_iO,
      breakAtPat_append_skip '<' ['/', 'b', '>'] Y _ hYlt, skip_bC_iC,
      breakAtPat_none_of_notin '<' ['/', 'b', '>'] p₃ h3lt]
    rfl
  rw [replaceAll_some (by decide) h4some, replaceAll_none h4none]
  simp only [List.append_assoc, List.cons_append, List.nil_append]
  have h5some : breakAtPat ['<', 'i', '>']
      (p₁ ++ '*' :: '*' :: (X ++ '*' :: '*' :: (p₂ ++ '<' :: 'i' :: '>'
        :: (Y ++ '<' :: '/' :: 'i' :: '>' :: p₃))))
      = some (p₁ ++ '*' :: '*' :: (X ++ '*' :: '*' :: p₂),
          Y ++ '<' :: '/' :: 'i' :: '>' :: p₃) := by
    rw [breakAtPat_append_skip '<' ['i', '>'] p₁ _ h1lt, step_star_lt, step_star_lt,
      breakAtPat_append_skip '<' ['i', '>'] X _ hXlt, step_star_lt, step_star_lt,
      breakAtPat_append_skip '<' ['i', '>'] p₂ _ h2lt, found_iO]
    simp
  have h5none : breakAtPat ['<', 'i', '>'] (Y ++ '<' :: '/' :: 'i' :: '>' :: p₃)
      = none := by
    rw [breakAtPat_append_skip '<' ['i', '>'] Y _ hYlt, skip_iO_iC,
      breakAtPat_none_of_notin '<' ['i', '>'] p₃ h3lt]
    rfl
  rw [replaceAll_some (by decide) h5some, replaceAll_none h5none]
  simp only [List.append_assoc, List.cons_append, List.nil_append]
  have h6some : breakAtPat ['<', '/', 'i', '>']
      (p₁ ++ '*' :: '*' :: (X ++ '*' :: '*' :: (p₂ ++ '*'
        :: (Y ++ '<' :: '/' :: 'i' :: '>' :: p₃))))
      = some (p₁ ++ '*' :: '*' :: (X ++ '*' :: '*' :: (p₂ ++ '*' :: Y)), p₃) := by
    rw [breakAtPat_append_skip '<' ['/', 'i', '>'] p₁ _ h1lt, step_star_lt, step_star_lt,
      breakAtPat_append_skip '<' ['/', 'i', '>'] X _ hXlt, step_star_lt, step_star_lt,
      breakAtPat_append_skip '<' ['/', 'i', '>'] p₂ _ h2lt, step_star_lt,
      breakAtPat_append_skip '<' ['/', 'i', '>'] Y _ hYlt, found_iC]
    simp
  rw [replaceAll_some (by decide) h6some,
    replaceAll_none (breakAtPat_none_of_notin '<' ['/', 'i', '>'] p₃ h3lt)]
  simp [List.append_assoc, List.cons_append]

theorem c8_forward (p₁ X p₂ Y p₃ : Str)
    (n1 : noSpec p₁) (nX : noSpec X) (n2 : noSpec p₂) (nY : noSpec Y) (n3 : noSpec p₃)
    (h1ne : p₁ ≠ []) (h2ne : p₂ ≠ []) (hYne : Y ≠ []) (h3ne : p₃ ≠ [])
    (hhead : ∀ c, p₁.head? = some c → ws c = false ∧ c ≠ '-')
    (hlast : ∀ c, p₃.getLast? = some c → ws c = false) :
    _markdown_to_html_for_anki
        (p₁ ++ '*' :: '*' :: (X ++ '*' :: '*' :: (p₂ ++ '*' :: (Y ++ '*' :: p₃))))
      = p₁ ++ '<' :: 'b' :: '>' :: (X ++ '<' :: '/' :: 'b' :: '>'
          :: (p₂ ++ '<' :: 'i' :: '>' :: (Y ++ '<' :: '/' :: 'i' :: '>' :: p₃))) := by
  have h1s : ∀ c ∈ p₁, c ≠ '*' := fun c hc => (n1 c hc).1
  have hXs : ∀ c ∈ X, c ≠ '*' := fun c hc => (nX c hc).1
  have h2s : ∀ c ∈ p₂, c ≠ '*' := fun c hc => (n2 c hc).1
  have hYs : ∀ c ∈ Y, c ≠ '*' := fun c hc => (nY c hc).1
  have h3s : ∀ c ∈ p₃, c ≠ '*' := fun c hc => (n3 c hc).1
  have h1lt : ∀ c ∈ p₁, c ≠ '<' := fun c hc => (n1 c hc).2.1
  have hXlt : ∀ c ∈ X, c ≠ '<' := fun c hc => (nX c hc).2.1
  have h2lt : ∀ c ∈ p₂, c ≠ '<' := fun c hc => (n2 c hc).2.1
  have hYlt : ∀ c ∈ Y, c ≠ '<' := fun c hc => (nY c hc).2.1
  have h3lt : ∀ c ∈ p₃, c ≠ '<' := fun c hc => (n3 c hc).2.1
  have htne : (p₁ ++ '*' :: '*' :: (X ++ '*' :: '*' :: (p₂ ++ '*' :: (Y ++ '*' :: p₃))))
      ≠ [] := by cases p₁ <;> simp
  have hnl : '\n' ∉ (p₁ ++ '*' :: '*' :: (X ++ '*' :: '*'
      :: (p₂ ++ '*' :: (Y ++ '*' :: p₃)))) := by
    intro hm
    simp at hm
    rcases hm with h | h | h | h | h
    exacts [(n1 _ h).2.2.2 rfl, (nX _ h).2.2.2 rfl, (n2 _ h).2.2.2 rfl,
      (nY _ h).2.2.2 rfl, (n3 _ h).2.2.2 rfl]
  have hheadt : (p₁ ++ '*' :: '*' :: (X ++ '*' :: '*'
      :: (p₂ ++ '*' :: (Y ++ '*' :: p₃)))).head? = p₁.head? :=
    head?_append_left _ h1ne
  have hte : p₁ ++ '*' :: '*' :: (X ++ '*' :: '*' :: (p₂ ++ '*' :: (Y ++ '*' :: p₃)))
      = (p₁ ++ '*' :: '*' :: (X ++ '*' :: '*' :: (p₂ ++ '*' :: (Y ++ ['*'])))) ++ p₃ := by
    simp [List.append_assoc, List.cons_append]
  have hlastt : (p₁ ++ '*' :: '*' :: (X ++ '*' :: '*'
      :: (p₂ ++ '*' :: (Y ++ '*' :: p₃)))).getLast? = p₃.getLast? := by
    rw [hte]
    exact getLast?_append_ne _ h3ne
  have hheadws : ∀ c, (p₁ ++ '*' :: '*' :: (X ++ '*' :: '*'
      :: (p₂ ++ '*' :: (Y ++ '*' :: p₃)))).head? = some c → ws c = false := by
    intro c hc
    rw [hheadt] at hc
    exact (hhead c hc).1
  have htrim : trimList (p₁ ++ '*' :: '*' :: (X ++ '*' :: '*'
      :: (p₂ ++ '*' :: (Y ++ '*' :: p₃))))
      = p₁ ++ '*' :: '*' :: (X ++ '*' :: '*' :: (p₂ ++ '*' :: (Y ++ '*' :: p₃))) :=
    trim_eq_self hheadws (fun c hc => hlast c (hlastt ▸ hc))
  rw [_markdown_to_html_for_anki, if_neg htne, splitNL_no_nl hnl, List.map_cons,
    List.map_nil, joinBr_single]
  have hproc : processLine (p₁ ++ '*' :: '*' :: (X ++ '*' :: '*'
      :: (p₂ ++ '*' :: (Y ++ '*' :: p₃))))
      = p₁ ++ '<' :: 'b' :: '>' :: (X ++ '<' :: '/' :: 'b' :: '>'
          :: (p₂ ++ '<' :: 'i' :: '>' :: (Y ++ '<' :: '/' :: 'i' :: '>' :: p₃))) := by
    rw [processLine, if_neg (fun hh => htne (htrim.symm.trans hh))]
    dsimp only
    rw [leadingWs_zero hheadws, if_neg (by decide)]
    rw [c8_bold p₁ X p₂ Y p₃ h1s hXs h2s hYs h3s hYne h3ne,
      c8_italic p₁ X p₂ Y p₃ h1s hXs h2s hYs h3s hYne h2ne h3ne
        (fun hm => (nY _ hm).2.2.2 rfl)]
    exact stripListMarker_eq_self (by
      intro c hc
      rw [head?_append_left _ h1ne] at hc
      exact ⟨(hhead c hc).1, (n1 c (mem_of_head?_eq hc)).1, (hhead c hc).2⟩)
  rw [hproc]
  rw [collapseBr_no_br _ (containsSub_of_none
    (t2_no_br p₁ X p₂ Y p₃ h1lt hXlt h2lt hYlt h3lt))]
  have hT2e : p₁ ++ '<' :: 'b' :: '>' :: (X ++ '<' :: '/' :: 'b' :: '>'
      :: (p₂ ++ '<' :: 'i' :: '>' :: (Y ++ '<' :: '/' :: 'i' :: '>' :: p₃)))
      = (p₁ ++ '<' :: 'b' :: '>' :: (X ++ '<' :: '/' :: 'b' :: '>'
          :: (p₂ ++ '<' :: 'i' :: '>' :: (Y ++ ['<', '/', 'i', '>'])))) ++ p₃ := by
    simp [List.append_assoc, List.cons_append]
  exact trim_eq_self
    (by
      intro c hc
      rw [head?_append_left _ h1ne] at hc
      exact (hhead c hc).1)
    (by
      intro c hc
      rw [hT2e, getLast?_append_ne _ h3ne] at hc
      exact hlast c hc)

/-- C8: on a line of the shape `p₁**X**p₂*Y*p₃` whose five plain-text parts
contain none of the characters treated specially by the two converters
(`*`, `<`, `&`, newline), where the line neither begins with whitespace or
a list marker nor ends in whitespace, applying `_markdown_to_html_for_anki`
and then `_html_to_markdown_for_console` returns the line unchanged: the
bold `**` and italic `*` emphasis markers survive the round trip. -/
theorem c8_roundtrip_markers (p₁ X p₂ Y p₃ : Str)
    (n1 : noSpec p₁) (nX : noSpec X) (n2 : noSpec p₂) (nY : noSpec Y) (n3 : noSpec p₃)
    (h1ne : p₁ ≠ []) (h2ne : p₂ ≠ []) (hYne : Y ≠ []) (h3ne : p₃ ≠ [])
    (hhead : ∀ c, p₁.head? = some c → ws c = false ∧ c ≠ '-')
    (hlast : ∀ c, p₃.getLast? = some c → ws c = false) :
    _html_to_markdown_for_console (_markdown_to_html_for_anki
        (p₁ ++ '*' :: '*' :: (X ++ '*' :: '*' :: (p₂ ++ '*' :: (Y ++ '*' :: p₃)))))
      = p₁ ++ '*' :: '*' :: (X ++ '*' :: '*' :: (p₂ ++ '*' :: (Y ++ '*' :: p₃))) := by
  rw [c8_forward p₁ X p₂ Y p₃ n1 nX n2 nY n3 h1ne h2ne hYne h3ne hhead hlast,
    c8_back p₁ X p₂ Y p₃ n1 nX n2 nY n3]

/-- Witness for C8: the concrete line `s**a** *b*u` round-trips unchanged. -/
theorem c8_roundtrip_markers_witness :
    _html_to_markdown_for_console (_markdown_to_html_for_anki
        (['s'] ++ '*' :: '*' :: (['a'] ++ '*' :: '*'
          :: ([' '] ++ '*' :: (['b'] ++ '*' :: ['u'])))))
      = ['s'] ++ '*' :: '*' :: (['a'] ++ '*' :: '*'
          :: ([' '] ++ '*' :: (['b'] ++ '*' :: ['u']))) :=
  c8_roundtrip_markers ['s'] ['a'] [' '] ['b'] ['u']
    (fun c hc => by simp at hc; subst hc; decide)
    (fun c hc => by simp at hc; subst hc; decide)
    (fun c hc => by simp at hc; subst hc; decide)
    (fun c hc => by simp at hc; subst hc; decide)
    (fun c hc => by simp at hc; subst hc; decide)
    (by decide) (by decide) (by decide) (by decide)
    (fun c hc => by simp at hc; subst hc; decide)
    (fun c hc => by simp at hc; subst hc; decide)
